import Mathlib

/-!
Verification of the parcel-routing engine: a shallow embedding of the
package/truck data model (`main.py`, `router.py`), the greedy nearest-feasible
selection (`router._nearest_next`), the per-truck routing loop
(`router.route_truck`), the day simulator (`simulator.simulate_day`), the
symmetric distance-matrix loader (`distances.DistanceMatrix.load`) and the
separate-chaining hash table (`hash_table.ChainingHashTable`).

Times of day (Python `timedelta` / `datetime.time` values) are modelled as
rational numbers of hours since midnight of the simulated day; miles and
speeds are rationals.  The package store (a `ChainingHashTable` keyed by
package id, accessed in the router only through `search` and in-place field
mutation of the record it returns) is modelled as a finite map
`Nat → Option Package`; the geo lookup
`matrix.distance_between_addresses(a, b, index)` is modelled as an oracle
`dist : String → String → ℚ`.
-/

namespace ParcelRouting

/-- Package record, from the `Package` dataclass in `main.py`. -/
structure Package where
  id : Nat
  street : String
  city : String
  state : String
  zip : String
  deadline : String
  weight : String
  notes : String
  status : String
  deadline_time : Option ℚ
  departure_time : Option ℚ
  delivery_time : Option ℚ
  truck_id : Option Nat
  available_time : ℚ
  correction_time : Option ℚ
  corrected_street : Option String
deriving DecidableEq, Repr

/-- The hub address constant `HUB_ADDR` from `router.py`. -/
def HUB_ADDR : String := "4001 South 700 East"

/-- Truck state, from the `Truck` dataclass in `router.py`. -/
structure Truck where
  id : Nat
  speed_mph : ℚ
  capacity : Nat
  start_time : ℚ
  current_addr : String
  clock : ℚ
  miles : ℚ
  load : List Nat
deriving DecidableEq, Repr

/-- The package store: `ChainingHashTable` keyed by package id, viewed as the
finite map it implements. -/
def PkgStore : Type := Nat → Option Package

/-- In-place mutation of the record returned by `packages.search(pid)`:
if the key is present, its record is replaced by `f` of it. -/
def updatePkg (s : PkgStore) (pid : Nat) (f : Package → Package) : PkgStore :=
  fun i => if i = pid then (s i).map f else s i

/-- `router.travel_time`: `timedelta(hours=miles / mph) if mph > 0 else timedelta(0)`. -/
def travel_time (miles mph : ℚ) : ℚ :=
  if mph > 0 then miles / mph else 0

/-- `router._would_miss_deadline`: both the arrival and the deadline are
anchored to the same base date, so the `datetime` comparison is exactly the
rational comparison `current_clock + travel_hours > deadline`. -/
def would_miss_deadline (current_clock travel_hours : ℚ) (deadline : Option ℚ) : Bool :=
  match deadline with
  | none => false
  | some dl => decide (current_clock + travel_hours > dl)

/-- The effective-address computation repeated twice inside `router.py`
(in `_nearest_next` and at delivery time in `route_truck`):
`if corr_time is not None and corr_street and clock >= corr_time: addr = corr_street`.
An empty corrected street is falsy in Python and leaves the original street. -/
def effectiveAddr (pkg : Package) (clock : ℚ) : String :=
  match pkg.correction_time, pkg.corrected_street with
  | some ct, some cs => if cs ≠ "" ∧ ct ≤ clock then cs else pkg.street
  | _, _ => pkg.street

/-- The running state of the selection loop in `router._nearest_next`:
`urgent_pick`/`urgent_dist`, `best_on_pid`/`best_on_dist`,
`best_any_pid`/`best_any_dist`, with `None`/`float("inf")` represented by
`Option.none`. -/
structure SelState where
  urgent : Option (Nat × ℚ)
  best_on : Option (Nat × ℚ)
  best_any : Option (Nat × ℚ)
deriving DecidableEq, Repr

/-- `d < best_dist` where an empty tracker stands for `float("inf")`. -/
def ltInf (d : ℚ) : Option (Nat × ℚ) → Bool
  | none => true
  | some pr => decide (d < pr.2)

/-- One iteration of the `for pid in remaining_pkg_ids` loop of
`router._nearest_next`. -/
def considerPkg (current_addr : String) (current_clock : ℚ) (store : PkgStore)
    (dist : String → String → ℚ) (s : SelState) (pid : Nat) : SelState :=
  match store pid with
  | none => s
  | some pkg =>
    if current_clock < pkg.available_time then s
    else
      let addr := effectiveAddr pkg current_clock
      let d := dist current_addr addr
      let travel_hours := d / 18
      let s1 := if ltInf d s.best_any then { s with best_any := some (pid, d) } else s
      if would_miss_deadline current_clock travel_hours pkg.deadline_time then s1
      else
        let s2 := if ltInf d s1.best_on then { s1 with best_on := some (pid, d) } else s1
        match pkg.deadline_time with
        | none => s2
        | some dl =>
          if dl - (current_clock + travel_hours) ≤ 1/4 ∧ ltInf d s2.urgent then
            { s2 with urgent := some (pid, d) }
          else s2

/-- The final return cascade of `router._nearest_next`: urgent pick first,
then best on-time, then best regardless, then `(None, 0.0)`. -/
def selFinish (s : SelState) : Option Nat × ℚ :=
  match s.urgent with
  | some pr => (some pr.1, pr.2)
  | none =>
    match s.best_on with
    | some pr => (some pr.1, pr.2)
    | none =>
      match s.best_any with
      | some pr => (some pr.1, pr.2)
      | none => (none, 0)

/-- `router._nearest_next`: fold the selection loop over the remaining ids and
return the highest-priority tracker, `(None, 0.0)` if all are empty. -/
def nearest_next (current_addr : String) (current_clock : ℚ) (remaining_pkg_ids : List Nat)
    (store : PkgStore) (dist : String → String → ℚ) : Option Nat × ℚ :=
  selFinish (remaining_pkg_ids.foldl (considerPkg current_addr current_clock store dist)
    { urgent := none, best_on := none, best_any := none })

/-- A package id is a candidate in `_nearest_next` when it is present in the
store and already available: the loop skips `pid` when `packages.search(pid)`
is falsy or `current_clock < pkg.available_time`. -/
def candB (current_clock : ℚ) (store : PkgStore) (pid : Nat) : Bool :=
  match store pid with
  | none => false
  | some pkg => decide (pkg.available_time ≤ current_clock)

/-- The distance from the current address to a candidate's effective address,
as computed by `_nearest_next` (`0` for ids absent from the store, which are
never candidates). -/
def candDist (current_addr : String) (current_clock : ℚ) (store : PkgStore)
    (dist : String → String → ℚ) (pid : Nat) : ℚ :=
  match store pid with
  | none => 0
  | some pkg => dist current_addr (effectiveAddr pkg current_clock)

/-- Whether `_nearest_next` classifies a candidate as missing its deadline:
`_would_miss_deadline(current_clock, d / 18.0, pkg.deadline_time)` with `d`
the candidate distance.  Note the hardcoded `18.0`. -/
def missB (current_addr : String) (current_clock : ℚ) (store : PkgStore)
    (dist : String → String → ℚ) (pid : Nat) : Bool :=
  match store pid with
  | none => false
  | some pkg =>
    would_miss_deadline current_clock
      (candDist current_addr current_clock store dist pid / 18) pkg.deadline_time

/-- On-time tier membership: a candidate that would not miss its deadline. -/
def onTimeB (current_addr : String) (current_clock : ℚ) (store : PkgStore)
    (dist : String → String → ℚ) (pid : Nat) : Bool :=
  candB current_clock store pid && !missB current_addr current_clock store dist pid

/-- Urgent tier membership: an on-time candidate with a deadline whose slack
(deadline minus projected arrival) is at most 15 simulated minutes. -/
def urgentB (current_addr : String) (current_clock : ℚ) (store : PkgStore)
    (dist : String → String → ℚ) (pid : Nat) : Bool :=
  onTimeB current_addr current_clock store dist pid &&
    (match store pid with
     | none => false
     | some pkg =>
       match pkg.deadline_time with
       | none => false
       | some dl =>
         decide (dl - (current_clock +
           candDist current_addr current_clock store dist pid / 18) ≤ 1/4))

theorem urgentB_onTimeB {a : String} {c : ℚ} {st : PkgStore} {dist : String → String → ℚ}
    {pid : Nat} (h : urgentB a c st dist pid = true) : onTimeB a c st dist pid = true := by
  unfold urgentB at h
  simp only [Bool.and_eq_true] at h
  exact h.1

theorem onTimeB_candB {a : String} {c : ℚ} {st : PkgStore} {dist : String → String → ℚ}
    {pid : Nat} (h : onTimeB a c st dist pid = true) : candB c st pid = true := by
  unfold onTimeB at h
  simp only [Bool.and_eq_true] at h
  exact h.1

theorem considerPkg_best_any (a : String) (c : ℚ) (st : PkgStore)
    (dist : String → String → ℚ) (s : SelState) (pid : Nat) :
    (considerPkg a c st dist s pid).best_any =
      if candB c st pid && ltInf (candDist a c st dist pid) s.best_any
      then some (pid, candDist a c st dist pid) else s.best_any := by
  rcases hstore : st pid with _ | pkg
  · simp [considerPkg, candB, hstore]
  · by_cases havail : c < pkg.available_time
    · simp [considerPkg, candB, hstore, havail, not_le.mpr havail]
    · have hd : candDist a c st dist pid = dist a (effectiveAddr pkg c) := by
        simp [candDist, hstore]
      have hc : candB c st pid = true := by
        simp [candB, hstore, not_lt.mp havail]
      rcases hdl : pkg.deadline_time with _ | dl <;>
        simp only [considerPkg, hstore, if_neg havail, hdl, hd, hc, Bool.true_and] <;>
        split_ifs <;> simp_all

theorem considerPkg_best_on (a : String) (c : ℚ) (st : PkgStore)
    (dist : String → String → ℚ) (s : SelState) (pid : Nat) :
    (considerPkg a c st dist s pid).best_on =
      if onTimeB a c st dist pid && ltInf (candDist a c st dist pid) s.best_on
      then some (pid, candDist a c st dist pid) else s.best_on := by
  rcases hstore : st pid with _ | pkg
  · simp [considerPkg, onTimeB, candB, hstore]
  · by_cases havail : c < pkg.available_time
    · simp [considerPkg, onTimeB, candB, hstore, havail, not_le.mpr havail]
    · have hd : candDist a c st dist pid = dist a (effectiveAddr pkg c) := by
        simp [candDist, hstore]
      have hc : candB c st pid = true := by
        simp [candB, hstore, not_lt.mp havail]
      have hm : missB a c st dist pid =
          would_miss_deadline c (dist a (effectiveAddr pkg c) / 18) pkg.deadline_time := by
        simp [missB, hstore, hd]
      rcases hdl : pkg.deadline_time with _ | dl <;>
        simp only [considerPkg, hstore, if_neg havail, hdl, hd, onTimeB, hc, hm,
          Bool.true_and] <;>
        split_ifs <;> simp_all

theorem considerPkg_urgent (a : String) (c : ℚ) (st : PkgStore)
    (dist : String → String → ℚ) (s : SelState) (pid : Nat) :
    (considerPkg a c st dist s pid).urgent =
      if urgentB a c st dist pid && ltInf (candDist a c st dist pid) s.urgent
      then some (pid, candDist a c st dist pid) else s.urgent := by
  rcases hstore : st pid with _ | pkg
  · simp [considerPkg, urgentB, onTimeB, candB, hstore]
  · by_cases havail : c < pkg.available_time
    · simp [considerPkg, urgentB, onTimeB, candB, hstore, havail, not_le.mpr havail]
    · have hd : candDist a c st dist pid = dist a (effectiveAddr pkg c) := by
        simp [candDist, hstore]
      have hc : candB c st pid = true := by
        simp [candB, hstore, not_lt.mp havail]
      have hm : missB a c st dist pid =
          would_miss_deadline c (dist a (effectiveAddr pkg c) / 18) pkg.deadline_time := by
        simp [missB, hstore, hd]
      rcases hdl : pkg.deadline_time with _ | dl <;>
        simp only [considerPkg, hstore, if_neg havail, hdl, hd, urgentB, onTimeB, hc, hm,
          Bool.true_and] <;>
        split_ifs <;> simp_all

/-- Invariant of a single tracker (pick, best distance) of the selection loop
over the processed prefix: empty exactly when no processed id satisfies the
tier predicate, otherwise it holds a satisfying id at minimal distance. -/
def TrackInv (P : Nat → Bool) (D : Nat → ℚ) (processed : List Nat) :
    Option (Nat × ℚ) → Prop
  | none => ∀ q ∈ processed, P q = false
  | some pr => pr.1 ∈ processed ∧ P pr.1 = true ∧ pr.2 = D pr.1 ∧
      ∀ q ∈ processed, P q = true → pr.2 ≤ D q

theorem trackInv_update (P : Nat → Bool) (D : Nat → ℚ) (processed : List Nat) (pid : Nat)
    (t : Option (Nat × ℚ)) (h : TrackInv P D processed t) :
    TrackInv P D (processed ++ [pid])
      (if P pid && ltInf (D pid) t then some (pid, D pid) else t) := by
  rcases hP : P pid with _ | _
  · simp only [hP, Bool.false_and, if_neg Bool.false_ne_true]
    match t, h with
    | none, h =>
      intro q hq
      rcases List.mem_append.mp hq with hq | hq
      · exact h q hq
      · simp at hq; subst hq; exact hP
    | some pr, h =>
      refine ⟨List.mem_append_left _ h.1, h.2.1, h.2.2.1, ?_⟩
      intro q hq hPq
      rcases List.mem_append.mp hq with hq | hq
      · exact h.2.2.2 q hq hPq
      · simp at hq; subst hq; rw [hP] at hPq; exact absurd hPq (by simp)
  · simp only [hP, Bool.true_and]
    match t, h with
    | none, h =>
      simp only [ltInf, if_pos rfl]
      refine ⟨List.mem_append_right _ (by simp), hP, rfl, ?_⟩
      intro q hq hPq
      rcases List.mem_append.mp hq with hq | hq
      · exact absurd hPq (by simp [h q hq])
      · simp at hq; subst hq; exact le_refl _
    | some pr, h =>
      simp only [ltInf]
      by_cases hlt : D pid < pr.2
      · rw [if_pos (by simpa using hlt)]
        refine ⟨List.mem_append_right _ (by simp), hP, rfl, ?_⟩
        intro q hq hPq
        rcases List.mem_append.mp hq with hq | hq
        · exact le_trans hlt.le (h.2.2.2 q hq hPq)
        · simp at hq; subst hq; exact le_refl _
      · rw [if_neg (by simpa using hlt)]
        refine ⟨List.mem_append_left _ h.1, h.2.1, h.2.2.1, ?_⟩
        intro q hq hPq
        rcases List.mem_append.mp hq with hq | hq
        · exact h.2.2.2 q hq hPq
        · simp at hq; subst hq; exact le_of_not_lt hlt

/-- Combined invariant of the three trackers of `_nearest_next`. -/
def StateInv (a : String) (c : ℚ) (st : PkgStore) (dist : String → String → ℚ)
    (processed : List Nat) (s : SelState) : Prop :=
  TrackInv (urgentB a c st dist) (candDist a c st dist) processed s.urgent ∧
  TrackInv (onTimeB a c st dist) (candDist a c st dist) processed s.best_on ∧
  TrackInv (candB c st) (candDist a c st dist) processed s.best_any

theorem considerPkg_stateInv (a : String) (c : ℚ) (st : PkgStore)
    (dist : String → String → ℚ) (processed : List Nat) (s : SelState) (pid : Nat)
    (h : StateInv a c st dist processed s) :
    StateInv a c st dist (processed ++ [pid]) (considerPkg a c st dist s pid) := by
  refine ⟨?_, ?_, ?_⟩
  · rw [considerPkg_urgent]
    exact trackInv_update _ _ _ _ _ h.1
  · rw [considerPkg_best_on]
    exact trackInv_update _ _ _ _ _ h.2.1
  · rw [considerPkg_best_any]
    exact trackInv_update _ _ _ _ _ h.2.2

theorem foldl_consider_stateInv (a : String) (c : ℚ) (st : PkgStore)
    (dist : String → String → ℚ) :
    ∀ (l processed : List Nat) (s : SelState), StateInv a c st dist processed s →
      StateInv a c st dist (processed ++ l) (l.foldl (considerPkg a c st dist) s) := by
  intro l
  induction l with
  | nil => intro processed s h; simpa using h
  | cons x xs ih =>
    intro processed s h
    have := ih (processed ++ [x]) _ (considerPkg_stateInv a c st dist processed s x h)
    simpa using this

theorem nearest_next_stateInv (a : String) (c : ℚ) (remaining : List Nat) (st : PkgStore)
    (dist : String → String → ℚ) :
    StateInv a c st dist remaining
      (remaining.foldl (considerPkg a c st dist)
        { urgent := none, best_on := none, best_any := none }) := by
  have h0 : StateInv a c st dist []
      { urgent := none, best_on := none, best_any := none } := by
    refine ⟨?_, ?_, ?_⟩ <;> intro q hq <;> simp at hq
  simpa using foldl_consider_stateInv a c st dist remaining [] _ h0

/-- Soundness of `_nearest_next`: a returned id is one of the remaining ids,
is a candidate (present and available), and the returned distance is its
candidate distance. -/
theorem nearest_next_some_sound {a : String} {c : ℚ} {remaining : List Nat} {st : PkgStore}
    {dist : String → String → ℚ} {p : Nat} {d : ℚ}
    (h : nearest_next a c remaining st dist = (some p, d)) :
    p ∈ remaining ∧ candB c st p = true ∧ d = candDist a c st dist p := by
  have hInv := nearest_next_stateInv a c remaining st dist
  unfold nearest_next at h
  rcases hInv with ⟨hu, ho, ha⟩
  generalize hs : remaining.foldl (considerPkg a c st dist)
    { urgent := none, best_on := none, best_any := none } = s at h hu ho ha
  rcases hru : s.urgent with _ | pru
  · rcases hro : s.best_on with _ | pro
    · rcases hra : s.best_any with _ | pra
      · rw [selFinish, hru, hro, hra] at h; simp at h
      · rw [selFinish, hru, hro, hra] at h
        simp only [Prod.mk.injEq, Option.some.injEq] at h
        rw [hra] at ha
        exact ⟨h.1 ▸ ha.1, h.1 ▸ ha.2.1, h.2 ▸ h.1 ▸ ha.2.2.1⟩
    · rw [selFinish, hru, hro] at h
      simp only [Prod.mk.injEq, Option.some.injEq] at h
      rw [hro] at ho
      exact ⟨h.1 ▸ ho.1, h.1 ▸ onTimeB_candB ho.2.1, h.2 ▸ h.1 ▸ ho.2.2.1⟩
  · rw [selFinish, hru] at h
    simp only [Prod.mk.injEq, Option.some.injEq] at h
    rw [hru] at hu
    exact ⟨h.1 ▸ hu.1, h.1 ▸ onTimeB_candB (urgentB_onTimeB hu.2.1), h.2 ▸ h.1 ▸ hu.2.2.1⟩

/-- All availability / correction events of the remaining packages, as
collected by the starvation guard of `route_truck` (ignoring the future-only
filter). -/
def allEvents (remaining : List Nat) (store : PkgStore) : List ℚ :=
  remaining.flatMap fun pid =>
    match store pid with
    | none => []
    | some pkg =>
      pkg.available_time ::
        (match pkg.correction_time with
         | some ct => [ct]
         | none => [])

/-- The `next_events` list of `route_truck`: availability times strictly in
the future, and correction times strictly in the future, of the remaining
packages present in the store. -/
def futureEvents (clock : ℚ) (remaining : List Nat) (store : PkgStore) : List ℚ :=
  (allEvents remaining store).filter (fun x => decide (clock < x))

/-- Python's `min` over a nonempty list (`None` for the empty list, where
`route_truck` breaks out of the loop instead). -/
def listMin : List ℚ → Option ℚ
  | [] => none
  | x :: xs => some (xs.foldl min x)

theorem foldl_min_mem : ∀ (xs : List ℚ) (x : ℚ), xs.foldl min x = x ∨ xs.foldl min x ∈ xs := by
  intro xs
  induction xs with
  | nil => intro x; left; rfl
  | cons y ys ih =>
    intro x
    simp only [List.foldl_cons]
    rcases ih (min x y) with h | h
    · rcases min_choice x y with he | he
      · left; rw [h, he]
      · right; rw [h, he]; exact List.mem_cons_self y ys
    · right; exact List.mem_cons_of_mem y h

theorem listMin_mem {l : List ℚ} {m : ℚ} (h : listMin l = some m) : m ∈ l := by
  match l with
  | [] => simp [listMin] at h
  | x :: xs =>
    simp only [listMin, Option.some.injEq] at h
    subst h
    rcases foldl_min_mem xs x with h | h
    · rw [h]; exact List.mem_cons_self x xs
    · exact List.mem_cons_of_mem x h

theorem mem_futureEvents_gt {clock : ℚ} {remaining : List Nat} {store : PkgStore} {x : ℚ}
    (h : x ∈ futureEvents clock remaining store) : clock < x := by
  have := List.mem_filter.mp h
  simpa using this.2

theorem futureEvents_advance {clock m : ℚ} {remaining : List Nat} {store : PkgStore}
    (hm : clock < m) :
    futureEvents m remaining store =
      (futureEvents clock remaining store).filter (fun x => decide (m < x)) := by
  simp only [futureEvents, List.filter_filter]
  apply List.filter_congr
  intro x _
  rcases lt_or_le m x with h | h
  · simp [h, lt_trans hm h]
  · simp [not_lt.mpr h]

theorem length_futureEvents_advance {clock m : ℚ} {remaining : List Nat} {store : PkgStore}
    (hmem : m ∈ futureEvents clock remaining store) :
    (futureEvents m remaining store).length < (futureEvents clock remaining store).length := by
  rw [futureEvents_advance (mem_futureEvents_gt hmem)]
  exact List.length_filter_lt_length_iff_exists.mpr ⟨m, hmem, by simp⟩

/-- The departure-time stamp taken when `_nearest_next` identifies the next
package: `if pkg and pkg.departure_time is None and truck.clock >= pkg.available_time`,
mark `departure_time = truck.clock` and `status = "En route"`. -/
def stampDeparture (store : PkgStore) (pid : Nat) (clock : ℚ) : PkgStore :=
  match store pid with
  | none => store
  | some pkg =>
    if pkg.departure_time = none ∧ pkg.available_time ≤ clock then
      updatePkg store pid
        (fun p => { p with departure_time := some clock, status := "En route" })
    else store

/-- The delivery step of `route_truck`: look the package up again, move the
truck to the package's effective address at the arrival clock, stamp
`delivery_time` and set status `"Delivered"`. -/
def deliverPkg (truck : Truck) (store : PkgStore) (pid : Nat) : Truck × PkgStore :=
  match store pid with
  | none => (truck, store)
  | some pkg =>
    ({ truck with current_addr := effectiveAddr pkg truck.clock },
     updatePkg store pid
       (fun p => { p with delivery_time := some truck.clock, status := "Delivered" }))

/-- One successful iteration of the main loop of `route_truck`, once
`_nearest_next` has returned `(pid, d)`: stamp the departure, add `d` to the
mileage, advance the clock by the travel time at the truck's speed, then
deliver the package. -/
def routeStep (truck : Truck) (store : PkgStore) (pid : Nat) (d : ℚ) : Truck × PkgStore :=
  deliverPkg
    { truck with miles := truck.miles + d,
                 clock := truck.clock + travel_time d truck.speed_mph }
    (stampDeparture store pid truck.clock) pid

/-- The `while remaining:` loop of `router.route_truck`.  When `_nearest_next`
returns an id: stamp its departure, advance miles and clock by the travelled
distance, deliver it and drop it from `remaining`.  When it returns `None`:
advance the clock to the earliest future availability/correction event and
retry, or break when there is no such event. -/
def routeLoop (dist : String → String → ℚ) (truck : Truck) (remaining : List Nat)
    (store : PkgStore) : Truck × PkgStore :=
  match remaining with
  | [] => (truck, store)
  | r :: rs =>
    match hn : nearest_next truck.current_addr truck.clock (r :: rs) store dist with
    | (some pid, d) =>
      routeLoop dist (routeStep truck store pid d).1 ((r :: rs).erase pid)
        (routeStep truck store pid d).2
    | (none, _) =>
      match hm : listMin (futureEvents truck.clock (r :: rs) store) with
      | some m => routeLoop dist { truck with clock := m } (r :: rs) store
      | none => (truck, store)
termination_by (remaining.length, (futureEvents truck.clock remaining store).length)
decreasing_by
  · apply Prod.Lex.left
    have hmem : pid ∈ r :: rs := (nearest_next_some_sound hn).1
    rw [List.length_erase_of_mem hmem]
    simp only [List.length_cons]
    omega
  · apply Prod.Lex.right
    exact length_futureEvents_advance (listMin_mem hm)

/-- `router.route_truck`: truncate the load to capacity, reset the clock and
location, tag every loaded package present in the store with the truck id,
run the main loop, then return to the hub if the truck ended elsewhere. -/
def route_truck (truck : Truck) (pkg_ids : List Nat) (store : PkgStore)
    (dist : String → String → ℚ) : Truck × PkgStore :=
  let truck0 := { truck with
    load := pkg_ids.take truck.capacity,
    clock := truck.start_time,
    current_addr := HUB_ADDR }
  let store0 := truck0.load.foldl
    (fun s pid => updatePkg s pid (fun p => { p with truck_id := some truck0.id })) store
  let ts := routeLoop dist truck0 truck0.load store0
  if ts.1.current_addr ≠ HUB_ADDR then
    let back := dist ts.1.current_addr HUB_ADDR
    ({ ts.1 with
        miles := ts.1.miles + back,
        clock := ts.1.clock + travel_time back ts.1.speed_mph,
        current_addr := HUB_ADDR }, ts.2)
  else ts

theorem routeLoop_nil (dist : String → String → ℚ) (truck : Truck) (store : PkgStore) :
    routeLoop dist truck [] store = (truck, store) := by
  rw [routeLoop.eq_def]

theorem routeLoop_cons_some {dist : String → String → ℚ} {truck : Truck} {r : Nat}
    {rs : List Nat} {store : PkgStore} {pid : Nat} {d : ℚ}
    (hn : nearest_next truck.current_addr truck.clock (r :: rs) store dist = (some pid, d)) :
    routeLoop dist truck (r :: rs) store =
      routeLoop dist (routeStep truck store pid d).1 ((r :: rs).erase pid)
        (routeStep truck store pid d).2 := by
  conv_lhs => rw [routeLoop.eq_def]
  split
  · rename_i heq
    cases heq
  · rename_i r2 rs2 heq
    injection heq with h1 h2
    subst h1; subst h2
    split
    · rename_i heq
      rw [hn] at heq
      injection heq with h1 h2
      injection h1 with h1
      subst h1; subst h2
      rfl
    · rename_i heq
      rw [hn] at heq
      simp at heq

theorem routeLoop_cons_none_some {dist : String → String → ℚ} {truck : Truck} {r : Nat}
    {rs : List Nat} {store : PkgStore} {sd m : ℚ}
    (hn : nearest_next truck.current_addr truck.clock (r :: rs) store dist = (none, sd))
    (hm : listMin (futureEvents truck.clock (r :: rs) store) = some m) :
    routeLoop dist truck (r :: rs) store =
      routeLoop dist { truck with clock := m } (r :: rs) store := by
  conv_lhs => rw [routeLoop.eq_def]
  split
  · rename_i heq
    cases heq
  · rename_i r2 rs2 heq
    injection heq with h1 h2
    subst h1; subst h2
    split
    · rename_i heq
      rw [hn] at heq
      simp at heq
    · split
      · rename_i hm2
        rw [hm] at hm2
        injection hm2 with hm2
        subst hm2
        rfl
      · rename_i hm2
        rw [hm] at hm2
        simp at hm2

theorem routeLoop_cons_none_none {dist : String → String → ℚ} {truck : Truck} {r : Nat}
    {rs : List Nat} {store : PkgStore} {sd : ℚ}
    (hn : nearest_next truck.current_addr truck.clock (r :: rs) store dist = (none, sd))
    (hm : listMin (futureEvents truck.clock (r :: rs) store) = none) :
    routeLoop dist truck (r :: rs) store = (truck, store) := by
  conv_lhs => rw [routeLoop.eq_def]
  split
  · rename_i heq
    cases heq
  · rename_i r2 rs2 heq
    injection heq with h1 h2
    subst h1; subst h2
    split
    · rename_i heq
      rw [hn] at heq
      simp at heq
    · split
      · rename_i hm2
        rw [hm] at hm2
        simp at hm2
      · rfl

theorem updatePkg_frame {s : PkgStore} {pid q : Nat} {f : Package → Package}
    (h : q ≠ pid) : updatePkg s pid f q = s q := by
  simp [updatePkg, h]

theorem stampDeparture_frame {store : PkgStore} {pid q : Nat} {clock : ℚ}
    (h : q ≠ pid) : stampDeparture store pid clock q = store q := by
  unfold stampDeparture
  rcases store pid with _ | pkg
  · rfl
  · dsimp only
    split
    · exact updatePkg_frame h
    · rfl

theorem deliverPkg_frame {truck : Truck} {store : PkgStore} {pid q : Nat}
    (h : q ≠ pid) : (deliverPkg truck store pid).2 q = store q := by
  unfold deliverPkg
  rcases store pid with _ | pkg
  · rfl
  · exact updatePkg_frame h

theorem routeStep_frame {truck : Truck} {store : PkgStore} {pid q : Nat} {d : ℚ}
    (h : q ≠ pid) : (routeStep truck store pid d).2 q = store q := by
  unfold routeStep
  rw [deliverPkg_frame h, stampDeparture_frame h]

/-- The main loop of `route_truck` never touches a package id outside the
remaining list. -/
theorem routeLoop_frame (dist : String → String → ℚ) :
    ∀ (truck : Truck) (remaining : List Nat) (store : PkgStore) (q : Nat),
      q ∉ remaining → (routeLoop dist truck remaining store).2 q = store q := by
  intro truck remaining store
  induction truck, remaining, store using routeLoop.induct dist with
  | case1 truck store =>
    intro q _
    rw [routeLoop_nil]
  | case2 truck store r rs pid d hn ih =>
    intro q hq
    rw [routeLoop_cons_some hn]
    have hpid : pid ∈ r :: rs := (nearest_next_some_sound hn).1
    have hqpid : q ≠ pid := fun he => hq (he ▸ hpid)
    have hqe : q ∉ (r :: rs).erase pid := fun hmem => hq (List.mem_of_mem_erase hmem)
    rw [ih q hqe, routeStep_frame hqpid]
  | case3 truck store r rs sd hn m hm ih =>
    intro q hq
    rw [routeLoop_cons_none_some hn hm]
    exact ih q hq
  | case4 truck store r rs sd hn hm =>
    intro q _
    rw [routeLoop_cons_none_none hn hm]

/-- Equality of all package fields except the per-delivery mutable ones
(`status`, `departure_time`, `delivery_time`), which are the only fields the
routing loop writes. -/
def coreSame (a b : Package) : Prop :=
  b.id = a.id ∧ b.street = a.street ∧ b.city = a.city ∧ b.state = a.state ∧
  b.zip = a.zip ∧ b.deadline = a.deadline ∧ b.weight = a.weight ∧ b.notes = a.notes ∧
  b.deadline_time = a.deadline_time ∧ b.truck_id = a.truck_id ∧
  b.available_time = a.available_time ∧ b.correction_time = a.correction_time ∧
  b.corrected_street = a.corrected_street

theorem coreSame_refl (a : Package) : coreSame a a := by
  unfold coreSame
  refine ⟨rfl, rfl, rfl, rfl, rfl, rfl, rfl, rfl, rfl, rfl, rfl, rfl, rfl⟩

theorem coreSame_trans {a b c : Package} (h1 : coreSame a b) (h2 : coreSame b c) :
    coreSame a c := by
  unfold coreSame at *
  obtain ⟨e1, e2, e3, e4, e5, e6, e7, e8, e9, e10, e11, e12, e13⟩ := h1
  obtain ⟨f1, f2, f3, f4, f5, f6, f7, f8, f9, f10, f11, f12, f13⟩ := h2
  exact ⟨f1.trans e1, f2.trans e2, f3.trans e3, f4.trans e4, f5.trans e5, f6.trans e6,
    f7.trans e7, f8.trans e8, f9.trans e9, f10.trans e10, f11.trans e11, f12.trans e12,
    f13.trans e13⟩

/-- `coreSame` lifted to optional records: presence is preserved and present
records agree on all non-mutable fields. -/
def coreSameO : Option Package → Option Package → Prop
  | none, none => True
  | some a, some b => coreSame a b
  | _, _ => False

theorem coreSameO_refl (o : Option Package) : coreSameO o o := by
  rcases o with _ | a
  · trivial
  · exact coreSame_refl a

theorem coreSameO_trans {o1 o2 o3 : Option Package} (h1 : coreSameO o1 o2)
    (h2 : coreSameO o2 o3) : coreSameO o1 o3 := by
  rcases o1 with _ | a <;> rcases o2 with _ | b <;> rcases o3 with _ | c
  · trivial
  · simp [coreSameO] at h2
  · simp [coreSameO] at h1
  · simp [coreSameO] at h1
  · simp [coreSameO] at h1
  · simp [coreSameO] at h1
  · simp [coreSameO] at h2
  · exact coreSame_trans h1 h2

/-- Pointwise `coreSameO` between two stores. -/
def storeCore (s s' : PkgStore) : Prop := ∀ pid, coreSameO (s pid) (s' pid)

theorem storeCore_refl (s : PkgStore) : storeCore s s := fun pid => coreSameO_refl (s pid)

theorem storeCore_trans {s1 s2 s3 : PkgStore} (h1 : storeCore s1 s2)
    (h2 : storeCore s2 s3) : storeCore s1 s3 :=
  fun pid => coreSameO_trans (h1 pid) (h2 pid)

theorem updatePkg_storeCore {s : PkgStore} {pid : Nat} {f : Package → Package}
    (hf : ∀ p, coreSame p (f p)) : storeCore s (updatePkg s pid f) := by
  intro q
  by_cases hq : q = pid
  · subst hq
    unfold updatePkg
    simp only [if_pos rfl]
    rcases s q with _ | pkg
    · trivial
    · exact hf pkg
  · rw [updatePkg_frame hq]
    exact coreSameO_refl _

theorem stampDeparture_storeCore (store : PkgStore) (pid : Nat) (clock : ℚ) :
    storeCore store (stampDeparture store pid clock) := by
  unfold stampDeparture
  rcases store pid with _ | pkg
  · exact storeCore_refl _
  · dsimp only
    split
    · refine updatePkg_storeCore ?_
      intro p
      unfold coreSame
      refine ⟨rfl, rfl, rfl, rfl, rfl, rfl, rfl, rfl, rfl, rfl, rfl, rfl, rfl⟩
    · exact storeCore_refl _

theorem deliverPkg_storeCore (truck : Truck) (store : PkgStore) (pid : Nat) :
    storeCore store (deliverPkg truck store pid).2 := by
  unfold deliverPkg
  rcases store pid with _ | pkg
  · exact storeCore_refl _
  · refine updatePkg_storeCore ?_
    intro p
    unfold coreSame
    refine ⟨rfl, rfl, rfl, rfl, rfl, rfl, rfl, rfl, rfl, rfl, rfl, rfl, rfl⟩

theorem routeStep_storeCore (truck : Truck) (store : PkgStore) (pid : Nat) (d : ℚ) :
    storeCore store (routeStep truck store pid d).2 := by
  unfold routeStep
  exact storeCore_trans (stampDeparture_storeCore store pid truck.clock)
    (deliverPkg_storeCore _ _ _)

/-- The routing loop mutates only `status`, `departure_time`, `delivery_time`
of store records: everything else — in particular `truck_id` and
`available_time` — is preserved, as is presence in the store. -/
theorem routeLoop_storeCore (dist : String → String → ℚ) :
    ∀ (truck : Truck) (remaining : List Nat) (store : PkgStore),
      storeCore store (routeLoop dist truck remaining store).2 := by
  intro truck remaining store
  induction truck, remaining, store using routeLoop.induct dist with
  | case1 truck store =>
    rw [routeLoop_nil]
    exact storeCore_refl _
  | case2 truck store r rs pid d hn ih =>
    rw [routeLoop_cons_some hn]
    exact storeCore_trans (routeStep_storeCore truck store pid d) ih
  | case3 truck store r rs sd hn m hm ih =>
    rw [routeLoop_cons_none_some hn hm]
    exact ih
  | case4 truck store r rs sd hn hm =>
    rw [routeLoop_cons_none_none hn hm]
    exact storeCore_refl _

/-- The routing loop leaves the truck's identity, speed, capacity, start time
and load untouched (it only advances `clock`, `miles`, `current_addr`). -/
theorem routeLoop_truck_fields (dist : String → String → ℚ) :
    ∀ (truck : Truck) (remaining : List Nat) (store : PkgStore),
      (routeLoop dist truck remaining store).1.id = truck.id ∧
      (routeLoop dist truck remaining store).1.speed_mph = truck.speed_mph ∧
      (routeLoop dist truck remaining store).1.capacity = truck.capacity ∧
      (routeLoop dist truck remaining store).1.start_time = truck.start_time ∧
      (routeLoop dist truck remaining store).1.load = truck.load := by
  intro truck remaining store
  induction truck, remaining, store using routeLoop.induct dist with
  | case1 truck store =>
    rw [routeLoop_nil]
    exact ⟨rfl, rfl, rfl, rfl, rfl⟩
  | case2 truck store r rs pid d hn ih =>
    rw [routeLoop_cons_some hn]
    have hdel : (routeStep truck store pid d).1.id = truck.id ∧
        (routeStep truck store pid d).1.speed_mph = truck.speed_mph ∧
        (routeStep truck store pid d).1.capacity = truck.capacity ∧
        (routeStep truck store pid d).1.start_time = truck.start_time ∧
        (routeStep truck store pid d).1.load = truck.load := by
      unfold routeStep deliverPkg
      rcases stampDeparture store pid truck.clock pid with _ | pkg
      · exact ⟨rfl, rfl, rfl, rfl, rfl⟩
      · exact ⟨rfl, rfl, rfl, rfl, rfl⟩
    obtain ⟨i1, i2, i3, i4, i5⟩ := ih
    obtain ⟨d1, d2, d3, d4, d5⟩ := hdel
    exact ⟨i1.trans d1, i2.trans d2, i3.trans d3, i4.trans d4, i5.trans d5⟩
  | case3 truck store r rs sd hn m hm ih =>
    rw [routeLoop_cons_none_some hn hm]
    exact ih
  | case4 truck store r rs sd hn hm =>
    rw [routeLoop_cons_none_none hn hm]
    exact ⟨rfl, rfl, rfl, rfl, rfl⟩

theorem updatePkg_same (s : PkgStore) (pid : Nat) (f : Package → Package) :
    updatePkg s pid f pid = (s pid).map f := by
  simp [updatePkg]

/-- Invariant relating departure stamps to availability: any stamped
departure is at or after the package's availability, and a delivered package
has a departure stamp. -/
def DInv (s : PkgStore) : Prop := ∀ pid pkg, s pid = some pkg →
  (∀ dep, pkg.departure_time = some dep → pkg.available_time ≤ dep) ∧
  (pkg.delivery_time ≠ none → pkg.departure_time ≠ none)

theorem stampDeparture_DInv {store : PkgStore} {pid : Nat} {clock : ℚ}
    (h : DInv store) : DInv (stampDeparture store pid clock) := by
  intro q pkg' hq
  unfold stampDeparture at hq
  rcases hs : store pid with _ | pkg
  · rw [hs] at hq
    exact h q pkg' hq
  · rw [hs] at hq
    dsimp only at hq
    split at hq
    · rename_i hcond
      by_cases hqpid : q = pid
      · subst hqpid
        rw [updatePkg_same, hs] at hq
        simp only [Option.map_some', Option.some.injEq] at hq
        subst hq
        refine ⟨?_, ?_⟩
        · intro dep hdep
          dsimp only at hdep ⊢
          injection hdep with hdep
          rw [← hdep]
          exact hcond.2
        · intro _
          simp
      · rw [updatePkg_frame hqpid] at hq
        exact h q pkg' hq
    · exact h q pkg' hq

theorem stampDeparture_stamped {store : PkgStore} {pid : Nat} {clock : ℚ} {pkg : Package}
    (hs : store pid = some pkg) (havail : pkg.available_time ≤ clock) :
    ∃ pkg1, stampDeparture store pid clock pid = some pkg1 ∧
      pkg1.departure_time ≠ none := by
  unfold stampDeparture
  rw [hs]
  dsimp only
  split
  · rename_i hcond
    refine ⟨{ pkg with departure_time := some clock, status := "En route" }, ?_, by simp⟩
    rw [updatePkg_same, hs]
    simp
  · rename_i hcond
    refine ⟨pkg, hs, ?_⟩
    rcases hd : pkg.departure_time with _ | dep
    · exact absurd ⟨hd, havail⟩ hcond
    · simp

theorem routeStep_DInv {truck : Truck} {store : PkgStore} {pid : Nat} {d : ℚ}
    (hc : candB truck.clock store pid = true) (h : DInv store) :
    DInv (routeStep truck store pid d).2 := by
  have hpkg : ∃ pkg, store pid = some pkg ∧ pkg.available_time ≤ truck.clock := by
    unfold candB at hc
    rcases hs : store pid with _ | pkg
    · rw [hs] at hc; simp at hc
    · rw [hs] at hc; simp at hc; exact ⟨pkg, rfl, hc⟩
  obtain ⟨pkg, hs, havail⟩ := hpkg
  have hD1 : DInv (stampDeparture store pid truck.clock) := stampDeparture_DInv h
  obtain ⟨pkg1, hs1, hdep1⟩ := stampDeparture_stamped hs havail
  intro q pkg' hq
  unfold routeStep deliverPkg at hq
  rw [hs1] at hq
  dsimp only at hq
  by_cases hqpid : q = pid
  · subst hqpid
    rw [updatePkg_same, hs1] at hq
    simp only [Option.map_some', Option.some.injEq] at hq
    subst hq
    refine ⟨?_, ?_⟩
    · intro dep hdepe
      dsimp only at hdepe ⊢
      exact (hD1 q pkg1 hs1).1 dep hdepe
    · intro _
      dsimp only
      exact hdep1
  · rw [updatePkg_frame hqpid] at hq
    exact hD1 q pkg' hq

theorem routeLoop_DInv (dist : String → String → ℚ) :
    ∀ (truck : Truck) (remaining : List Nat) (store : PkgStore),
      DInv store → DInv (routeLoop dist truck remaining store).2 := by
  intro truck remaining store
  induction truck, remaining, store using routeLoop.induct dist with
  | case1 truck store =>
    intro h
    rw [routeLoop_nil]
    exact h
  | case2 truck store r rs pid d hn ih =>
    intro h
    rw [routeLoop_cons_some hn]
    exact ih (routeStep_DInv (nearest_next_some_sound hn).2.1 h)
  | case3 truck store r rs sd hn m hm ih =>
    intro h
    rw [routeLoop_cons_none_some hn hm]
    exact ih h
  | case4 truck store r rs sd hn hm =>
    intro h
    rw [routeLoop_cons_none_none hn hm]
    exact h

/-- The initial truck-id tagging loop of `route_truck`:
`for pid in truck.load: pkg = packages.search(pid); if pkg: pkg.truck_id = truck.id`. -/
def tagLoad (load : List Nat) (tid : Nat) (store : PkgStore) : PkgStore :=
  load.foldl (fun s pid => updatePkg s pid (fun p => { p with truck_id := some tid })) store

theorem tagLoad_lookup (tid : Nat) :
    ∀ (load : List Nat) (store : PkgStore) (q : Nat),
      tagLoad load tid store q =
        if q ∈ load then (store q).map (fun p => { p with truck_id := some tid })
        else store q := by
  intro load
  induction load with
  | nil => intro store q; simp [tagLoad]
  | cons a l ih =>
    intro store q
    unfold tagLoad at *
    rw [List.foldl_cons, ih]
    by_cases hql : q ∈ l
    · rw [if_pos hql, if_pos (List.mem_cons_of_mem a hql)]
      by_cases hqa : q = a
      · subst hqa
        rw [updatePkg_same]
        rcases store q with _ | pkg
        · simp
        · simp
      · rw [updatePkg_frame hqa]
    · rw [if_neg hql]
      by_cases hqa : q = a
      · subst hqa
        rw [if_pos (List.mem_cons_self q l), updatePkg_same]
      · rw [updatePkg_frame hqa,
          if_neg (by intro hmem; rcases List.mem_cons.mp hmem with h | h; exact hqa h; exact hql h)]

theorem tagLoad_DInv {load : List Nat} {tid : Nat} {store : PkgStore}
    (h : DInv store) : DInv (tagLoad load tid store) := by
  intro q pkg' hq
  rw [tagLoad_lookup] at hq
  split at hq
  · rcases hs : store q with _ | pkg
    · rw [hs] at hq; simp at hq
    · rw [hs] at hq
      simp only [Option.map_some', Option.some.injEq] at hq
      subst hq
      obtain ⟨h1, h2⟩ := h q pkg hs
      refine ⟨?_, ?_⟩
      · intro dep hdep
        dsimp only at hdep ⊢
        exact h1 dep hdep
      · intro hdel
        dsimp only at hdel ⊢
        exact h2 hdel
  · exact h q pkg' hq

/-- The final store of `route_truck` is exactly the final store of its main
loop started from the tagged store (the return-to-hub step touches only the
truck). -/
theorem route_truck_store_eq (truck : Truck) (pkg_ids : List Nat) (store : PkgStore)
    (dist : String → String → ℚ) :
    (route_truck truck pkg_ids store dist).2 =
      (routeLoop dist
        { truck with load := pkg_ids.take truck.capacity, clock := truck.start_time,
                     current_addr := HUB_ADDR }
        (pkg_ids.take truck.capacity)
        (tagLoad (pkg_ids.take truck.capacity) truck.id store)).2 := by
  unfold route_truck tagLoad
  dsimp only
  split
  · rfl
  · rfl

theorem route_truck_truck_fields (truck : Truck) (pkg_ids : List Nat) (store : PkgStore)
    (dist : String → String → ℚ) :
    (route_truck truck pkg_ids store dist).1.id = truck.id ∧
    (route_truck truck pkg_ids store dist).1.speed_mph = truck.speed_mph ∧
    (route_truck truck pkg_ids store dist).1.capacity = truck.capacity ∧
    (route_truck truck pkg_ids store dist).1.start_time = truck.start_time ∧
    (route_truck truck pkg_ids store dist).1.load = pkg_ids.take truck.capacity := by
  unfold route_truck
  dsimp only
  obtain ⟨f1, f2, f3, f4, f5⟩ := routeLoop_truck_fields dist
    { truck with load := pkg_ids.take truck.capacity, clock := truck.start_time,
                 current_addr := HUB_ADDR }
    (pkg_ids.take truck.capacity)
    (tagLoad (pkg_ids.take truck.capacity) truck.id store)
  unfold tagLoad at *
  split
  · exact ⟨f1, f2, f3, f4, f5⟩
  · exact ⟨f1, f2, f3, f4, f5⟩

/-- `simulator.HUB_START`: the common 8:00 day-start. -/
def HUB_START : ℚ := 8

/-- A `Truck(id=i, start_time=HUB_START)` as created by `simulate_day`, with
the dataclass defaults of `router.Truck` for every other field. -/
def mkTruck (i : Nat) : Truck :=
  { id := i, speed_mph := 18, capacity := 16, start_time := HUB_START,
    current_addr := HUB_ADDR, clock := 8, miles := 0, load := [] }

/-- Application of the optional `hold_at_hub_until` override to one truck:
overwrite both `start_time` and `clock`. -/
def applyHold (hold_at_hub_until : Nat → Option ℚ) (t : Truck) : Truck :=
  match hold_at_hub_until t.id with
  | some ts => { t with start_time := ts, clock := ts }
  | none => t

/-- The result dictionary of `simulator.simulate_day`:
`{"trucks": {1: t1, 2: t2, 3: t3}, "total_miles": ...}`. -/
structure SimResult where
  t1 : Truck
  t2 : Truck
  t3 : Truck
  total_miles : ℚ
deriving DecidableEq, Repr

/-- `simulator.simulate_day`: create three trucks, apply the hold overrides,
route trucks 1 and 2 when they have a non-empty load, gate truck 3 on the
first driver freed (`min(t1.clock, t2.clock)`), and sum the mileage.  The
loads dictionary is modelled as `Nat → Option (List Nat)` (`tid ∈ loads` iff
`loads tid ≠ none`); the store is returned alongside the result to expose the
in-place package mutations. -/
def simulate_day (store : PkgStore) (dist : String → String → ℚ)
    (loads : Nat → Option (List Nat)) (hold_at_hub_until : Nat → Option ℚ) :
    SimResult × PkgStore :=
  let t1h := applyHold hold_at_hub_until (mkTruck 1)
  let t2h := applyHold hold_at_hub_until (mkTruck 2)
  let t3h := applyHold hold_at_hub_until (mkTruck 3)
  let r1 :=
    match loads 1 with
    | some l => if l ≠ [] then route_truck t1h l store dist else (t1h, store)
    | none => (t1h, store)
  let r2 :=
    match loads 2 with
    | some l => if l ≠ [] then route_truck t2h l r1.2 dist else (t2h, r1.2)
    | none => (t2h, r1.2)
  let r3 :=
    match loads 3 with
    | some l =>
      if l ≠ [] then
        let driver_free_time := min r1.1.clock r2.1.clock
        let t3g :=
          if t3h.start_time < driver_free_time then
            { t3h with start_time := driver_free_time, clock := driver_free_time }
          else t3h
        route_truck t3g l r2.2 dist
      else (t3h, r2.2)
    | none => (t3h, r2.2)
  (⟨r1.1, r2.1, r3.1, r1.1.miles + r2.1.miles + r3.1.miles⟩, r3.2)

/-- Point update of a square-matrix-as-function, modelling the assignment
`self._miles[i][j] = v`. -/
def matUpd (A : Nat → Nat → ℚ) (i j : Nat) (v : ℚ) : Nat → Nat → ℚ :=
  fun a b => if a = i ∧ b = j then v else A a b

/-- One iteration of the mirroring loop of `DistanceMatrix.load`, at cell
`(i, j)`: zero the diagonal; otherwise copy the transposed cell into a zero
cell when the transposed cell is nonzero. -/
def mirrorStep (A : Nat → Nat → ℚ) (c : Nat × Nat) : Nat → Nat → ℚ :=
  if c.1 = c.2 then matUpd A c.1 c.2 0
  else if A c.1 c.2 = 0 ∧ A c.2 c.1 ≠ 0 then matUpd A c.1 c.2 (A c.2 c.1) else A

/-- The fill stage of `DistanceMatrix.load`: a `n × n` zero matrix overwritten
with the parsed CSV cells (`rows` holds the parsed numeric cells, an
empty/missing cell contributing its initialized `0.0`). -/
def fillFromRows (rows : List (List ℚ)) : Nat → Nat → ℚ :=
  fun i j => (rows.getD i []).getD j 0

/-- The row-major traversal `for i in range(n): for j in range(n):` of the
mirroring loop. -/
def cellList (n : Nat) : List (Nat × Nat) :=
  (List.range n).product (List.range n)

/-- The mirroring loop of `DistanceMatrix.load`, run in place over all cells. -/
def mirrorFill (A : Nat → Nat → ℚ) (n : Nat) : Nat → Nat → ℚ :=
  (cellList n).foldl mirrorStep A

/-- `DistanceMatrix.load` on parsed rows: fill, then mirror;
`DistanceMatrix.get(i, j)` is application of the resulting function. -/
def loadMatrix (rows : List (List ℚ)) : Nat → Nat → ℚ :=
  mirrorFill (fillFromRows rows) rows.length

/-- Pointwise description of what one pass of the mirroring loop computes. -/
def mirrored (A : Nat → Nat → ℚ) (i j : Nat) : ℚ :=
  if i = j then 0 else if A i j ≠ 0 then A i j else A j i

theorem mirrorStep_frame {B : Nat → Nat → ℚ} {c : Nat × Nat} {a b : Nat}
    (h : ¬(a = c.1 ∧ b = c.2)) : mirrorStep B c a b = B a b := by
  unfold mirrorStep
  split
  · simp [matUpd, h]
  · split
    · simp [matUpd, h]
    · rfl

theorem mirrorStep_visit {A B : Nat → Nat → ℚ} {c : Nat × Nat}
    (hBij : B c.1 c.2 = A c.1 c.2)
    (hswap : B c.2 c.1 = A c.2 c.1 ∨ B c.2 c.1 = mirrored A c.2 c.1) :
    mirrorStep B c c.1 c.2 = mirrored A c.1 c.2 := by
  obtain ⟨i, j⟩ := c
  dsimp only at hBij hswap ⊢
  unfold mirrorStep mirrored
  dsimp only
  by_cases hij : i = j
  · rw [if_pos hij, if_pos hij]
    simp [matUpd]
  · rw [if_neg hij, if_neg hij]
    by_cases hij0 : A i j = 0
    · have hBji : B j i = A j i := by
        rcases hswap with h | h
        · exact h
        · rw [h]
          unfold mirrored
          rw [if_neg (fun he => hij he.symm)]
          by_cases hji0 : A j i = 0
          · simp [hji0, hij0]
          · simp [hji0]
      by_cases hji0 : A j i = 0
      · have hcond : ¬(B i j = 0 ∧ B j i ≠ 0) := by
          rw [hBij, hBji, hij0, hji0]; simp
        rw [if_neg hcond, hBij]
        simp [hij0, hji0]
      · have hcond : B i j = 0 ∧ B j i ≠ 0 :=
          ⟨by rw [hBij, hij0], by rw [hBji]; exact hji0⟩
        rw [if_pos hcond]
        simp [matUpd, hBji, hij0]
    · have hcond : ¬(B i j = 0 ∧ B j i ≠ 0) := fun hc => hij0 (hBij ▸ hc.1)
      rw [if_neg hcond, hBij, if_pos hij0]

theorem foldl_mirror_inv (A : Nat → Nat → ℚ) :
    ∀ (L V : List (Nat × Nat)) (B : Nat → Nat → ℚ),
      L.Nodup → (∀ c ∈ L, c ∉ V) →
      (∀ c ∈ V, B c.1 c.2 = mirrored A c.1 c.2) →
      (∀ c, c ∉ V → B c.1 c.2 = A c.1 c.2) →
      ∀ c, (L.foldl mirrorStep B) c.1 c.2 =
        if c ∈ V ∨ c ∈ L then mirrored A c.1 c.2 else A c.1 c.2 := by
  intro L
  induction L with
  | nil =>
    intro V B _ _ hV hnV c
    simp only [List.foldl_nil, List.not_mem_nil, or_false]
    split
    · rename_i h; exact hV c h
    · rename_i h; exact hnV c h
  | cons c0 L ih =>
    intro V B hnd hLV hV hnV c
    simp only [List.foldl_cons]
    have hc0V : c0 ∉ V := hLV c0 (List.mem_cons_self c0 L)
    have hstep : ∀ c' ∈ c0 :: V, mirrorStep B c0 c'.1 c'.2 = mirrored A c'.1 c'.2 := by
      intro c' hc'
      rcases List.mem_cons.mp hc' with h | h
      · subst h
        refine mirrorStep_visit (hnV c' hc0V) ?_
        by_cases hsw : (c'.2, c'.1) ∈ V
        · right; exact hV (c'.2, c'.1) hsw
        · left; exact hnV (c'.2, c'.1) hsw
      · have hne : ¬(c'.1 = c0.1 ∧ c'.2 = c0.2) := by
          intro he
          apply hc0V
          have : c' = c0 := Prod.ext he.1 he.2
          rw [← this]; exact h
        rw [mirrorStep_frame hne]
        exact hV c' h
    have hnstep : ∀ c', c' ∉ c0 :: V → mirrorStep B c0 c'.1 c'.2 = A c'.1 c'.2 := by
      intro c' hc'
      have h1 : c' ≠ c0 := fun he => hc' (he ▸ List.mem_cons_self c0 V)
      have h2 : c' ∉ V := fun he => hc' (List.mem_cons_of_mem c0 he)
      have hne : ¬(c'.1 = c0.1 ∧ c'.2 = c0.2) := by
        intro he
        exact h1 (Prod.ext he.1 he.2)
      rw [mirrorStep_frame hne]
      exact hnV c' h2
    have hLV' : ∀ c' ∈ L, c' ∉ c0 :: V := by
      intro c' hc'
      intro hmem
      rcases List.mem_cons.mp hmem with h | h
      · subst h
        exact (List.nodup_cons.mp hnd).1 hc'
      · exact hLV c' (List.mem_cons_of_mem c0 hc') h
    have := ih (c0 :: V) (mirrorStep B c0) (List.nodup_cons.mp hnd).2 hLV' hstep hnstep c
    rw [this]
    by_cases hcV : c ∈ V
    · rw [if_pos (Or.inl (List.mem_cons_of_mem c0 hcV)), if_pos (Or.inl hcV)]
    · by_cases hcc0 : c = c0
      · subst hcc0
        rw [if_pos (Or.inl (List.mem_cons_self c V)),
          if_pos (Or.inr (List.mem_cons_self c L))]
      · by_cases hcL : c ∈ L
        · rw [if_pos (Or.inr hcL), if_pos (Or.inr (List.mem_cons_of_mem c0 hcL))]
        · rw [if_neg ?_, if_neg ?_]
          · intro h
            rcases h with h | h
            · exact hcV h
            · rcases List.mem_cons.mp h with h | h
              · exact hcc0 h
              · exact hcL h
          · intro h
            rcases h with h | h
            · rcases List.mem_cons.mp h with h | h
              · exact hcc0 h
              · exact hcV h
            · exact hcL h

theorem mirrorFill_eq {A : Nat → Nat → ℚ} {n i j : Nat} (hi : i < n) (hj : j < n) :
    mirrorFill A n i j = mirrored A i j := by
  have hnd : (cellList n).Nodup :=
    List.Nodup.product (List.nodup_range n) (List.nodup_range n)
  have h := foldl_mirror_inv A (cellList n) [] A hnd (by simp) (by simp)
    (fun _ _ => rfl) (i, j)
  unfold mirrorFill
  rw [h]
  rw [if_pos]
  right
  unfold cellList
  exact List.mem_product.mpr ⟨List.mem_range.mpr hi, List.mem_range.mpr hj⟩

/-- `hash_table.ChainingHashTable`: separate-chaining buckets, a tracked
entry count and the configured maximum load factor (0.75 at the default
construction).  Python's built-in `hash` is abstracted as an arbitrary
function `hash : K → Nat` supplied to each operation. -/
structure ChainingHashTable (K V : Type) where
  buckets : List (List (K × V))
  size : Nat
  max_load_factor : ℚ
deriving Repr

/-- `self._index(key)`: `hash(key) % len(self._buckets)`. -/
def hindex {K V : Type} (hash : K → Nat) (t : ChainingHashTable K V) (k : K) : Nat :=
  hash k % t.buckets.length

/-- `ChainingHashTable.search`: scan the key's bucket, first match wins. -/
def search {K V : Type} [DecidableEq K] (hash : K → Nat) (t : ChainingHashTable K V)
    (k : K) : Option V :=
  ((t.buckets.getD (hindex hash t k) []).find? (fun p => decide (p.1 = k))).map (fun p => p.2)

/-- `ChainingHashTable.load_factor`: `self._size / len(self._buckets)`. -/
def load_factor {K V : Type} (t : ChainingHashTable K V) : ℚ :=
  (t.size : ℚ) / (t.buckets.length : ℚ)

/-- The `for i, (k, _) in enumerate(bucket): if k == key: bucket[i] = (key, value)`
scan of `insert`: replace the first pair with the given key, `none` when the
key is absent from the bucket. -/
def replaceFirst {K V : Type} [DecidableEq K] (bucket : List (K × V)) (k : K) (v : V) :
    Option (List (K × V)) :=
  match bucket with
  | [] => none
  | p :: rest =>
    if p.1 = k then some ((k, v) :: rest)
    else (replaceFirst rest k v).map (fun nb => p :: nb)

/-- The `for i, (k, _) in enumerate(bucket): if k == key: bucket.pop(i)` scan
of `remove`: drop the first pair with the given key, `none` when absent. -/
def removeFirst {K V : Type} [DecidableEq K] (bucket : List (K × V)) (k : K) :
    Option (List (K × V)) :=
  match bucket with
  | [] => none
  | p :: rest =>
    if p.1 = k then some rest
    else (removeFirst rest k).map (fun nb => p :: nb)

/-- `ChainingHashTable._resize`: rehash every pair, in bucket-traversal order,
into a fresh bucket array of the new capacity, recounting the size. -/
def resize {K V : Type} (hash : K → Nat) (t : ChainingHashTable K V)
    (new_capacity : Nat) : ChainingHashTable K V :=
  let pairs := t.buckets.flatten
  { buckets :=
      pairs.foldl
        (fun bs p =>
          bs.set (hash p.1 % new_capacity) (bs.getD (hash p.1 % new_capacity) [] ++ [p]))
        (List.replicate new_capacity []),
    size := pairs.length,
    max_load_factor := t.max_load_factor }

/-- `ChainingHashTable.insert`: update in place when the key exists, else
append to the bucket, bump the size, and double the capacity when the load
factor exceeds the threshold. -/
def insert {K V : Type} [DecidableEq K] (hash : K → Nat) (t : ChainingHashTable K V)
    (k : K) (v : V) : ChainingHashTable K V :=
  let idx := hindex hash t k
  let bucket := t.buckets.getD idx []
  match replaceFirst bucket k v with
  | some nb => { t with buckets := t.buckets.set idx nb }
  | none =>
    let t1 := { t with buckets := t.buckets.set idx (bucket ++ [(k, v)]),
                       size := t.size + 1 }
    if load_factor t1 > t1.max_load_factor then resize hash t1 (t1.buckets.length * 2)
    else t1

/-- `ChainingHashTable.remove`: drop the key's pair from its bucket if
present, decrement the size, and report whether anything was removed. -/
def remove {K V : Type} [DecidableEq K] (hash : K → Nat) (t : ChainingHashTable K V)
    (k : K) : ChainingHashTable K V × Bool :=
  let idx := hindex hash t k
  let bucket := t.buckets.getD idx []
  match removeFirst bucket k with
  | some nb => ({ t with buckets := t.buckets.set idx nb, size := t.size - 1 }, true)
  | none => (t, false)

/-- Well-formedness of a chaining hash table (holds for every table built by
`__init__`/`insert`/`remove`): at least one bucket, every pair stored in the
bucket its key hashes to, and no duplicate keys anywhere. -/
def WF {K V : Type} (hash : K → Nat) (t : ChainingHashTable K V) : Prop :=
  0 < t.buckets.length ∧
  (∀ i : Fin t.buckets.length, ∀ p ∈ t.buckets.get i,
      hash p.1 % t.buckets.length = i.1) ∧
  (t.buckets.flatten.map Prod.fst).Nodup

theorem replaceFirst_none {K V : Type} [DecidableEq K] :
    ∀ (bucket : List (K × V)) (k : K) (v : V),
      replaceFirst bucket k v = none ↔ ∀ p ∈ bucket, p.1 ≠ k := by
  intro bucket k v
  induction bucket with
  | nil => simp [replaceFirst]
  | cons p rest ih =>
    unfold replaceFirst
    by_cases hp : p.1 = k
    · simp [hp]
    · simp only [if_neg hp, Option.map_eq_none', List.mem_cons]
      constructor
      · intro h q hq
        rcases hq with hq | hq
        · subst hq; exact hp
        · exact (ih.mp h) q hq
      · intro h
        exact ih.mpr fun q hq => h q (Or.inr hq)

theorem replaceFirst_find? {K V : Type} [DecidableEq K] :
    ∀ (bucket nb : List (K × V)) (k : K) (v : V),
      replaceFirst bucket k v = some nb →
      nb.find? (fun p => decide (p.1 = k)) = some (k, v) := by
  intro bucket
  induction bucket with
  | nil => intro nb k v h; simp [replaceFirst] at h
  | cons p rest ih =>
    intro nb k v h
    unfold replaceFirst at h
    by_cases hp : p.1 = k
    · rw [if_pos hp] at h
      injection h with h
      subst h
      simp [List.find?]
    · rw [if_neg hp] at h
      rcases hrf : replaceFirst rest k v with _ | nb'
      · rw [hrf] at h; simp at h
      · rw [hrf] at h
        simp only [Option.map_some', Option.some.injEq] at h
        subst h
        rw [List.find?_cons]
        simp only [decide_eq_false hp]
        exact ih nb' k v hrf

theorem removeFirst_none {K V : Type} [DecidableEq K] :
    ∀ (bucket : List (K × V)) (k : K),
      removeFirst bucket k = none ↔ ∀ p ∈ bucket, p.1 ≠ k := by
  intro bucket k
  induction bucket with
  | nil => simp [removeFirst]
  | cons p rest ih =>
    unfold removeFirst
    by_cases hp : p.1 = k
    · simp [hp]
    · simp only [if_neg hp, Option.map_eq_none', List.mem_cons]
      constructor
      · intro h q hq
        rcases hq with hq | hq
        · subst hq; exact hp
        · exact (ih.mp h) q hq
      · intro h
        exact ih.mpr fun q hq => h q (Or.inr hq)

theorem removeFirst_find? {K V : Type} [DecidableEq K] :
    ∀ (bucket nb : List (K × V)) (k : K),
      (bucket.map Prod.fst).Nodup → removeFirst bucket k = some nb →
      nb.find? (fun p => decide (p.1 = k)) = none := by
  intro bucket
  induction bucket with
  | nil => intro nb k _ h; simp [removeFirst] at h
  | cons p rest ih =>
    intro nb k hnd h
    unfold removeFirst at h
    by_cases hp : p.1 = k
    · rw [if_pos hp] at h
      injection h with h
      subst h
      rw [List.find?_eq_none]
      intro q hq
      simp only [decide_eq_true_eq]
      intro hqk
      have hmem : q.1 ∈ rest.map Prod.fst := List.mem_map_of_mem Prod.fst hq
      rw [List.map_cons, List.nodup_cons] at hnd
      exact hnd.1 (by rw [hp, ← hqk]; exact hmem)
    · rw [if_neg hp] at h
      rcases hrf : removeFirst rest k with _ | nb'
      · rw [hrf] at h; simp at h
      · rw [hrf] at h
        simp only [Option.map_some', Option.some.injEq] at h
        subst h
        rw [List.find?_cons]
        simp only [decide_eq_false hp]
        rw [List.map_cons, List.nodup_cons] at hnd
        exact ih nb' k hnd.2 hrf

theorem getD_set_self {α : Type} (l : List α) (i : Nat) (x d : α) (h : i < l.length) :
    (l.set i x).getD i d = x := by
  rw [List.getD_eq_getElem?_getD, List.getElem?_set]
  simp [h]

theorem getD_set_other {α : Type} (l : List α) (i j : Nat) (x d : α) (h : i ≠ j) :
    (l.set i x).getD j d = l.getD j d := by
  rw [List.getD_eq_getElem?_getD, List.getElem?_set, if_neg h, ← List.getD_eq_getElem?_getD]

theorem getD_mem {α : Type} (l : List α) (i : Nat) (d : α) (h : i < l.length) :
    l.getD i d ∈ l := by
  rw [List.getD_eq_getElem?_getD, List.getElem?_eq_getElem h]
  exact List.getElem_mem h

theorem find?_unique {α : Type} (p : α → Bool) (l : List α) (a : α) (ha : a ∈ l)
    (hpa : p a = true) (huniq : ∀ b ∈ l, p b = true → b = a) : l.find? p = some a := by
  induction l with
  | nil => simp at ha
  | cons x xs ih =>
    rw [List.find?_cons]
    rcases hx : p x with _ | _
    · simp only
      rcases List.mem_cons.mp ha with h | h
      · subst h; rw [hpa] at hx; cases hx
      · exact ih h fun b hb hpb => huniq b (List.mem_cons_of_mem x hb) hpb
    · simp only
      rw [huniq x (List.mem_cons_self x xs) hx]

theorem foldl_rehash_length {K V : Type} (hash : K → Nat) (m : Nat) :
    ∀ (pairs : List (K × V)) (B : List (List (K × V))),
      (pairs.foldl
        (fun bs p => bs.set (hash p.1 % m) (bs.getD (hash p.1 % m) [] ++ [p]))
        B).length = B.length := by
  intro pairs
  induction pairs with
  | nil => intro B; rfl
  | cons p ps ih =>
    intro B
    rw [List.foldl_cons, ih, List.length_set]

theorem foldl_rehash_getD {K V : Type} (hash : K → Nat) (m : Nat) :
    ∀ (pairs : List (K × V)) (B : List (List (K × V))), B.length = m →
      ∀ j, j < m →
        (pairs.foldl
          (fun bs p => bs.set (hash p.1 % m) (bs.getD (hash p.1 % m) [] ++ [p]))
          B).getD j [] =
        B.getD j [] ++ pairs.filter (fun p => decide (hash p.1 % m = j)) := by
  intro pairs
  induction pairs with
  | nil => intro B _ j _; simp
  | cons p ps ih =>
    intro B hB j hj
    rw [List.foldl_cons]
    have hlen : (B.set (hash p.1 % m) (B.getD (hash p.1 % m) [] ++ [p])).length = m := by
      rw [List.length_set, hB]
    rw [ih _ hlen j hj, List.filter_cons]
    by_cases hpj : hash p.1 % m = j
    · rw [if_pos (by simp [hpj])]
      rw [hpj, getD_set_self _ _ _ _ (by rw [hB]; exact hj), List.append_assoc]
      rfl
    · rw [if_neg (by simp [hpj]), getD_set_other _ _ _ _ _ hpj]

theorem resize_search_unique {K V : Type} [DecidableEq K] (hash : K → Nat)
    (t : ChainingHashTable K V) (new_capacity : Nat) (hc : 0 < new_capacity) (k : K) (v : V)
    (hmem : (k, v) ∈ t.buckets.flatten)
    (huniq : ∀ p ∈ t.buckets.flatten, p.1 = k → p = (k, v)) :
    search hash (resize hash t new_capacity) k = some v := by
  unfold search resize hindex
  dsimp only
  rw [foldl_rehash_length, List.length_replicate]
  have hj : hash k % new_capacity < new_capacity := Nat.mod_lt _ hc
  rw [foldl_rehash_getD hash new_capacity _ _ (List.length_replicate _ _) _ hj]
  have hrep : (List.replicate new_capacity ([] : List (K × V))).getD
      (hash k % new_capacity) [] = [] := by
    rw [List.getD_eq_getElem?_getD]
    rcases hlt : (List.replicate new_capacity ([] : List (K × V)))[hash k % new_capacity]?
      with _ | b
    · rfl
    · have := List.getElem?_mem hlt
      rw [List.eq_of_mem_replicate this]
      rfl
  rw [hrep, List.nil_append]
  have hfind : (t.buckets.flatten.filter
      (fun p => decide (hash p.1 % new_capacity = hash k % new_capacity))).find?
      (fun p => decide (p.1 = k)) = some (k, v) := by
    apply find?_unique
    · exact List.mem_filter.mpr ⟨hmem, by simp⟩
    · simp
    · intro b hb hpb
      have hb' := (List.mem_filter.mp hb).1
      simp only [decide_eq_true_eq] at hpb
      exact huniq b hb' hpb
  rw [hfind]
  rfl

/-- In a well-formed table, a stored pair lies in the bucket its key hashes
to. -/
theorem WF_key_in_own_bucket {K V : Type} (hash : K → Nat) {t : ChainingHashTable K V}
    (hW : WF hash t) {p : K × V} (hp : p ∈ t.buckets.flatten) :
    p ∈ t.buckets.getD (hash p.1 % t.buckets.length) [] := by
  obtain ⟨b, hb, hpb⟩ := List.mem_flatten.mp hp
  obtain ⟨i, hi⟩ := List.mem_iff_get.mp hb
  have hidx := hW.2.1 i p (by rw [hi]; exact hpb)
  rw [hidx]
  have : t.buckets.getD i.1 [] = b := by
    rw [List.getD_eq_getElem?_getD, List.getElem?_eq_getElem i.2]
    rw [← hi]
    rfl
  rw [this]
  exact hpb

/-- In a well-formed table, each bucket has pairwise-distinct keys. -/
theorem WF_bucket_keys_nodup {K V : Type} (hash : K → Nat) {t : ChainingHashTable K V}
    (hW : WF hash t) (idx : Nat) :
    ((t.buckets.getD idx []).map Prod.fst).Nodup := by
  by_cases hlt : idx < t.buckets.length
  · have hmem : t.buckets.getD idx [] ∈ t.buckets := getD_mem _ _ _ hlt
    have hsub := List.sublist_flatten_of_mem hmem
    exact (hsub.map Prod.fst).nodup hW.2.2
  · rw [List.getD_eq_getElem?_getD, List.getElem?_eq_none (by omega)]
    simp

theorem insert_search_self {K V : Type} [DecidableEq K] (hash : K → Nat)
    {t : ChainingHashTable K V} (hW : WF hash t) (k : K) (v : V) :
    search hash (insert hash t k v) k = some v := by
  have hlen0 : 0 < t.buckets.length := hW.1
  have hidx : hindex hash t k < t.buckets.length := Nat.mod_lt _ hlen0
  unfold insert
  dsimp only
  rcases hrf : replaceFirst (t.buckets.getD (hindex hash t k) []) k v with _ | nb
  · dsimp only
    split
    · -- resize path
      apply resize_search_unique
      · have : (t.buckets.set (hindex hash t k)
            (t.buckets.getD (hindex hash t k) [] ++ [(k, v)])).length > 0 := by
          rw [List.length_set]; exact hlen0
        omega
      · apply List.mem_flatten.mpr
        refine ⟨t.buckets.getD (hindex hash t k) [] ++ [(k, v)], ?_, by simp⟩
        exact List.mem_set _ _ hidx _
      · intro p hp hpk
        obtain ⟨b, hb, hpb⟩ := List.mem_flatten.mp hp
        rcases List.mem_or_eq_of_mem_set hb with hb' | hb'
        · exfalso
          have hpfl : p ∈ t.buckets.flatten := List.mem_flatten.mpr ⟨b, hb', hpb⟩
          have := WF_key_in_own_bucket hash hW hpfl
          rw [hpk] at this
          exact (replaceFirst_none _ _ _).mp hrf p this hpk
        · subst hb'
          rcases List.mem_append.mp hpb with hpb' | hpb'
          · exact absurd hpk ((replaceFirst_none _ _ _).mp hrf p hpb')
          · simpa using hpb'
    · -- no-resize path
      unfold search hindex
      dsimp only
      rw [List.length_set]
      have hidx2 : hash k % t.buckets.length < t.buckets.length := hidx
      rw [getD_set_self _ _ _ _ hidx2]
      rw [List.find?_append]
      have h1 : (t.buckets.getD (hindex hash t k) []).find?
          (fun p => decide (p.1 = k)) = none := by
        rw [List.find?_eq_none]
        intro p hp
        simp only [decide_eq_true_eq]
        exact (replaceFirst_none _ _ _).mp hrf p hp
      unfold hindex at h1
      rw [h1]
      simp
  · -- replace-in-place path
    unfold search hindex
    dsimp only
    rw [List.length_set]
    have hidx2 : hash k % t.buckets.length < t.buckets.length := hidx
    rw [getD_set_self _ _ _ _ hidx2]
    rw [replaceFirst_find? _ _ _ _ hrf]
    rfl

theorem insert_size_of_present {K V : Type} [DecidableEq K] (hash : K → Nat)
    (t : ChainingHashTable K V) (k : K) (v : V) (hmem : search hash t k ≠ none) :
    (insert hash t k v).size = t.size := by
  unfold insert
  dsimp only
  rcases hrf : replaceFirst (t.buckets.getD (hindex hash t k) []) k v with _ | nb
  · exfalso
    apply hmem
    unfold search
    rw [Option.map_eq_none']
    rw [List.find?_eq_none]
    intro p hp
    simp only [decide_eq_true_eq]
    exact (replaceFirst_none _ _ _).mp hrf p hp
  · rfl

theorem remove_search_none {K V : Type} [DecidableEq K] (hash : K → Nat)
    {t : ChainingHashTable K V} (hW : WF hash t) (k : K) :
    search hash (remove hash t k).1 k = none := by
  have hlen0 : 0 < t.buckets.length := hW.1
  have hidx : hindex hash t k < t.buckets.length := Nat.mod_lt _ hlen0
  unfold remove
  dsimp only
  rcases hrm : removeFirst (t.buckets.getD (hindex hash t k) []) k with _ | nb
  · dsimp only
    unfold search
    rw [Option.map_eq_none', List.find?_eq_none]
    intro p hp
    simp only [decide_eq_true_eq]
    exact (removeFirst_none _ _).mp hrm p hp
  · dsimp only
    unfold search hindex
    dsimp only
    rw [List.length_set]
    have hidx2 : hash k % t.buckets.length < t.buckets.length := hidx
    rw [getD_set_self _ _ _ _ hidx2]
    rw [removeFirst_find? _ _ _ (WF_bucket_keys_nodup hash hW _) hrm]
    rfl

theorem selFinish_tiers (a : String) (c : ℚ) (st : PkgStore)
    (dist : String → String → ℚ) (remaining : List Nat) (s : SelState)
    (hInv : StateInv a c st dist remaining s) :
    ((selFinish s).1 = none ↔ ∀ pid ∈ remaining, candB c st pid = false) ∧
    ((∃ pid ∈ remaining, urgentB a c st dist pid = true) →
      ∃ p ∈ remaining, urgentB a c st dist p = true ∧
        selFinish s = (some p, candDist a c st dist p) ∧
        ∀ q ∈ remaining, urgentB a c st dist q = true →
          candDist a c st dist p ≤ candDist a c st dist q) ∧
    ((∀ pid ∈ remaining, urgentB a c st dist pid = false) →
      (∃ pid ∈ remaining, onTimeB a c st dist pid = true) →
      ∃ p ∈ remaining, onTimeB a c st dist p = true ∧
        selFinish s = (some p, candDist a c st dist p) ∧
        ∀ q ∈ remaining, onTimeB a c st dist q = true →
          candDist a c st dist p ≤ candDist a c st dist q) ∧
    ((∀ pid ∈ remaining, onTimeB a c st dist pid = false) →
      (∃ pid ∈ remaining, candB c st pid = true) →
      ∃ p ∈ remaining, candB c st p = true ∧
        selFinish s = (some p, candDist a c st dist p) ∧
        ∀ q ∈ remaining, candB c st q = true →
          candDist a c st dist p ≤ candDist a c st dist q) := by
  obtain ⟨hu, ho, ha⟩ := hInv
  rcases hru : s.urgent with _ | pru
  · rw [hru] at hu
    simp only [TrackInv] at hu
    rcases hro : s.best_on with _ | pro
    · rw [hro] at ho
      simp only [TrackInv] at ho
      rcases hra : s.best_any with _ | pra
      · rw [hra] at ha
        simp only [TrackInv] at ha
        simp only [selFinish, hru, hro, hra]
        refine ⟨⟨fun _ => ha, fun _ => by simp⟩, ?_, ?_, ?_⟩
        · rintro ⟨p, hm, hp⟩
          have := onTimeB_candB (urgentB_onTimeB hp)
          rw [ha p hm] at this
          cases this
        · rintro _ ⟨p, hm, hp⟩
          have := onTimeB_candB hp
          rw [ha p hm] at this
          cases this
        · rintro _ ⟨p, hm, hp⟩
          rw [ha p hm] at hp
          cases hp
      · rw [hra] at ha
        simp only [TrackInv] at ha
        obtain ⟨hmem, hP, hD, hmin⟩ := ha
        simp only [selFinish, hru, hro, hra]
        refine ⟨⟨fun h => by simp at h, fun hall => ?_⟩, ?_, ?_, ?_⟩
        · rw [hall pra.1 hmem] at hP
          cases hP
        · rintro ⟨p, hm, hp⟩
          have := urgentB_onTimeB hp
          rw [hu p hm] at hp
          cases hp
        · rintro _ ⟨p, hm, hp⟩
          rw [ho p hm] at hp
          cases hp
        · rintro _ _
          exact ⟨pra.1, hmem, hP, by rw [hD], by simp only [← hD]; exact hmin⟩
    · rw [hro] at ho
      simp only [TrackInv] at ho
      obtain ⟨hmem, hP, hD, hmin⟩ := ho
      simp only [selFinish, hru, hro]
      refine ⟨⟨fun h => by simp at h, fun hall => ?_⟩, ?_, ?_, ?_⟩
      · have := onTimeB_candB hP
        rw [hall pro.1 hmem] at this
        cases this
      · rintro ⟨p, hm, hp⟩
        rw [hu p hm] at hp
        cases hp
      · rintro _ _
        exact ⟨pro.1, hmem, hP, by rw [hD], by simp only [← hD]; exact hmin⟩
      · rintro hnone _
        rw [hnone pro.1 hmem] at hP
        cases hP
  · rw [hru] at hu
    simp only [TrackInv] at hu
    obtain ⟨hmem, hP, hD, hmin⟩ := hu
    simp only [selFinish, hru]
    refine ⟨⟨fun h => by simp at h, fun hall => ?_⟩, ?_, ?_, ?_⟩
    · have := onTimeB_candB (urgentB_onTimeB hP)
      rw [hall pru.1 hmem] at this
      cases this
    · rintro _
      exact ⟨pru.1, hmem, hP, by rw [hD], by simp only [← hD]; exact hmin⟩
    · rintro hnone _
      rw [hnone pru.1 hmem] at hP
      cases hP
    · rintro hnone _
      have := urgentB_onTimeB hP
      rw [hnone pru.1 hmem] at this
      cases this

/-- A default-shaped package record used for concrete instances: no deadline,
available from the start of day, no correction, untouched delivery state. -/
def basePkg : Package :=
  { id := 0, street := "195 W Oakland Ave", city := "Salt Lake City", state := "UT",
    zip := "84115", deadline := "EOD", weight := "2", notes := "", status := "At the hub",
    deadline_time := none, departure_time := none, delivery_time := none, truck_id := none,
    available_time := 0, correction_time := none, corrected_street := none }

/-- Concrete package with a 8:24 deadline, for the deadline-classification
counterexample. -/
def pkgC4 : Package := { basePkg with id := 4, deadline_time := some (42/5) }

/-- One-package store holding `pkgC4` at id 4. -/
def storeC4 : PkgStore := fun i => if i = 4 then some pkgC4 else none

/-- A truck with the degenerate speed 0 mph. -/
def truckC6 : Truck :=
  { id := 1, speed_mph := 0, capacity := 16, start_time := 8,
    current_addr := HUB_ADDR, clock := 8, miles := 0, load := [] }

/-- Concrete deliverable package at id 1. -/
def pkgW : Package := { basePkg with id := 1 }

/-- One-package store holding `pkgW` at id 1. -/
def storeW : PkgStore := fun i => if i = 1 then some pkgW else none

/-- A one-bucket hash table holding key 0, for the hash-table witness. -/
def htW : ChainingHashTable Nat Nat :=
  { buckets := [[(0, 100)]], size := 1, max_load_factor := 3/4 }

theorem route_truck_nil_ids (truck : Truck) (store : PkgStore)
    (dist : String → String → ℚ) :
    route_truck truck [] store dist =
      ({ truck with load := [], clock := truck.start_time, current_addr := HUB_ADDR },
       store) := by
  unfold route_truck
  simp only [List.take_nil]
  have htag : tagLoad [] truck.id store = store := rfl
  unfold tagLoad at htag
  rw [htag, routeLoop_nil]
  rw [if_neg (by simp)]

/-- The store entries outside the truncated load are untouched by
`route_truck`. -/
theorem route_truck_untouched (truck : Truck) (pkg_ids : List Nat) (store : PkgStore)
    (dist : String → String → ℚ) (pid : Nat) (h : pid ∉ pkg_ids.take truck.capacity) :
    (route_truck truck pkg_ids store dist).2 pid = store pid := by
  rw [route_truck_store_eq]
  rw [routeLoop_frame _ _ _ _ _ h]
  rw [tagLoad_lookup, if_neg h]

/-- `route_truck` writes `truck_id` only with its own truck's id. -/
theorem route_truck_truck_id (truck : Truck) (pkg_ids : List Nat) (store : PkgStore)
    (dist : String → String → ℚ) :
    ∀ pid pkg', (route_truck truck pkg_ids store dist).2 pid = some pkg' →
      pkg'.truck_id = some truck.id ∨
      ∃ pkg, store pid = some pkg ∧ pkg'.truck_id = pkg.truck_id := by
  intro pid pkg' hpid
  rw [route_truck_store_eq] at hpid
  have hcore := routeLoop_storeCore dist
    { truck with load := pkg_ids.take truck.capacity, clock := truck.start_time,
                 current_addr := HUB_ADDR }
    (pkg_ids.take truck.capacity)
    (tagLoad (pkg_ids.take truck.capacity) truck.id store) pid
  rw [hpid] at hcore
  rcases hs0 : tagLoad (pkg_ids.take truck.capacity) truck.id store pid with _ | a
  · rw [hs0] at hcore
    exact absurd hcore (by simp [coreSameO])
  · rw [hs0] at hcore
    have htid : pkg'.truck_id = a.truck_id := hcore.2.2.2.2.2.2.2.2.2.1
    rw [tagLoad_lookup] at hs0
    split at hs0
    · rcases hsp : store pid with _ | pkg
      · rw [hsp] at hs0; simp at hs0
      · rw [hsp] at hs0
        simp only [Option.map_some', Option.some.injEq] at hs0
        left
        rw [htid, ← hs0]
    · right
      exact ⟨a, hs0, htid⟩

/-- The fields of `applyHold` applied to a freshly created truck. -/
theorem applyHold_mkTruck (hold_at_hub_until : Nat → Option ℚ) (i : Nat) :
    (applyHold hold_at_hub_until (mkTruck i)).id = i ∧
    (applyHold hold_at_hub_until (mkTruck i)).miles = 0 ∧
    (applyHold hold_at_hub_until (mkTruck i)).load = [] ∧
    (applyHold hold_at_hub_until (mkTruck i)).current_addr = HUB_ADDR ∧
    (applyHold hold_at_hub_until (mkTruck i)).start_time =
      (hold_at_hub_until i).getD HUB_START ∧
    (applyHold hold_at_hub_until (mkTruck i)).clock =
      (hold_at_hub_until i).getD HUB_START := by
  unfold applyHold mkTruck
  dsimp only
  rcases hold_at_hub_until i with _ | ts
  · exact ⟨rfl, rfl, rfl, rfl, rfl, rfl⟩
  · exact ⟨rfl, rfl, rfl, rfl, rfl, rfl⟩

theorem if_lt_eq_max (a b : ℚ) : (if a < b then b else a) = max a b := by
  rcases lt_or_le a b with h | h
  · rw [if_pos h, max_eq_right h.le]
  · rw [if_neg (not_lt.mpr h), max_eq_left h]

/-- Claim C1: `route_truck` truncates the load to the first
`truck.capacity` ids (so the load never exceeds capacity), assigns
`truck.id` to every loaded package present in the store even if it is never
delivered, and leaves every store entry outside the truncated load exactly as
it was (in particular such packages are neither delivered nor assigned a
truck id by this call). -/
theorem claim_C1_capacity_truncation_and_assignment (truck : Truck) (pkg_ids : List Nat)
    (store : PkgStore) (dist : String → String → ℚ) :
    (route_truck truck pkg_ids store dist).1.load = pkg_ids.take truck.capacity ∧
    (route_truck truck pkg_ids store dist).1.load.length ≤ truck.capacity ∧
    (∀ pid ∈ pkg_ids.take truck.capacity, ∀ pkg, store pid = some pkg →
      ∃ pkg', (route_truck truck pkg_ids store dist).2 pid = some pkg' ∧
        pkg'.truck_id = some truck.id) ∧
    (∀ pid, pid ∉ pkg_ids.take truck.capacity →
      (route_truck truck pkg_ids store dist).2 pid = store pid) := by
  obtain ⟨_, _, _, _, hload⟩ := route_truck_truck_fields truck pkg_ids store dist
  refine ⟨hload, by rw [hload]; exact List.length_take_le _ _, ?_, ?_⟩
  · intro pid hpid pkg hpkg
    rw [route_truck_store_eq]
    have hs0 : tagLoad (pkg_ids.take truck.capacity) truck.id store pid =
        some { pkg with truck_id := some truck.id } := by
      rw [tagLoad_lookup, if_pos hpid, hpkg]
      rfl
    have hcore := routeLoop_storeCore dist
      { truck with load := pkg_ids.take truck.capacity, clock := truck.start_time,
                   current_addr := HUB_ADDR }
      (pkg_ids.take truck.capacity)
      (tagLoad (pkg_ids.take truck.capacity) truck.id store) pid
    rw [hs0] at hcore
    rcases hfin : (routeLoop dist
        { truck with load := pkg_ids.take truck.capacity, clock := truck.start_time,
                     current_addr := HUB_ADDR }
        (pkg_ids.take truck.capacity)
        (tagLoad (pkg_ids.take truck.capacity) truck.id store)).2 pid with _ | pkg'
    · rw [hfin] at hcore
      exact absurd hcore (by simp [coreSameO])
    · rw [hfin] at hcore
      refine ⟨pkg', rfl, ?_⟩
      have := hcore.2.2.2.2.2.2.2.2.2.1
      rw [this]
  · intro pid hpid
    exact route_truck_untouched truck pkg_ids store dist pid hpid

/-- Witness for C1 at a concrete input: a capacity-1 truck loaded from
`[1, 2]` keeps only `[1]` and the store entry at the excess id 2 is
untouched. -/
theorem claim_C1_witness :
    (route_truck { truckC6 with speed_mph := 18, capacity := 1 } [1, 2] storeW
      (fun _ _ => 5)).1.load = [1] ∧
    (route_truck { truckC6 with speed_mph := 18, capacity := 1 } [1, 2] storeW
      (fun _ _ => 5)).2 2 = storeW 2 := by
  have h := claim_C1_capacity_truncation_and_assignment
    { truckC6 with speed_mph := 18, capacity := 1 } [1, 2] storeW (fun _ _ => 5)
  exact ⟨h.1, h.2.2.2 2 (by simp [truckC6])⟩

/-- Claim C8 (frame property): `route_truck` mutates only the store records
whose ids lie in its truncated load; every other record is returned exactly
as it was, so trucks with disjoint loads cannot touch each other's
packages. -/
theorem claim_C8_frame_disjoint_loads (truck : Truck) (pkg_ids : List Nat)
    (store : PkgStore) (dist : String → String → ℚ) (pid : Nat)
    (h : pid ∉ pkg_ids.take truck.capacity) :
    (route_truck truck pkg_ids store dist).2 pid = store pid :=
  route_truck_untouched truck pkg_ids store dist pid h

/-- Witness for C8 at a concrete input: id 7 is outside the truncated load
`[1]`, and its store entry is untouched. -/
theorem claim_C8_witness :
    (7 ∉ ([1] : List Nat).take truckC6.capacity) ∧
    (route_truck truckC6 [1] storeW (fun _ _ => 5)).2 7 = storeW 7 := by
  refine ⟨by simp [truckC6], ?_⟩
  exact claim_C8_frame_disjoint_loads truckC6 [1] storeW (fun _ _ => 5) 7
    (by simp [truckC6])

/-- Claim C5: starting from a store with no stale departure or delivery
stamps, every package `route_truck` delivers has its departure stamped, and
the stamp is at or after the package's availability time (a package is
selected only once the truck clock has reached its `available_time`, and the
departure stamp is the clock at selection). -/
theorem claim_C5_departure_after_availability (truck : Truck) (pkg_ids : List Nat)
    (store : PkgStore) (dist : String → String → ℚ)
    (hfresh : ∀ pid pkg, store pid = some pkg →
      pkg.departure_time = none ∧ pkg.delivery_time = none) :
    ∀ pid pkg', (route_truck truck pkg_ids store dist).2 pid = some pkg' →
      pkg'.delivery_time ≠ none →
      ∃ dep, pkg'.departure_time = some dep ∧ pkg'.available_time ≤ dep := by
  have hD : DInv store := by
    intro pid pkg hpkg
    obtain ⟨h1, h2⟩ := hfresh pid pkg hpkg
    exact ⟨fun dep hdep => absurd hdep (by rw [h1]; simp),
      fun hdel => absurd h2 (by simpa using hdel)⟩
  intro pid pkg' hpid hdel
  rw [route_truck_store_eq] at hpid
  have hD' := routeLoop_DInv dist
    { truck with load := pkg_ids.take truck.capacity, clock := truck.start_time,
                 current_addr := HUB_ADDR }
    (pkg_ids.take truck.capacity)
    (tagLoad (pkg_ids.take truck.capacity) truck.id store)
    (tagLoad_DInv hD)
  obtain ⟨h1, h2⟩ := hD' pid pkg' hpid
  rcases hdep : pkg'.departure_time with _ | dep
  · exact absurd hdep (h2 hdel)
  · exact ⟨dep, rfl, h1 dep hdep⟩

/-- Witness for C5 at a concrete input: the fresh one-package store, with the
conclusion instantiated at package id 1. -/
theorem claim_C5_witness :
    (∀ pid pkg, storeW pid = some pkg →
      pkg.departure_time = none ∧ pkg.delivery_time = none) ∧
    (∀ pkg', (route_truck { truckC6 with speed_mph := 18 } [1] storeW
        (fun _ _ => 5)).2 1 = some pkg' →
      pkg'.delivery_time ≠ none →
      ∃ dep, pkg'.departure_time = some dep ∧ pkg'.available_time ≤ dep) := by
  have hfresh : ∀ pid pkg, storeW pid = some pkg →
      pkg.departure_time = none ∧ pkg.delivery_time = none := by
    intro pid pkg h
    unfold storeW at h
    split at h
    · injection h with h
      rw [← h]
      exact ⟨rfl, rfl⟩
    · cases h
  exact ⟨hfresh, fun pkg' h hdel =>
    claim_C5_departure_after_availability { truckC6 with speed_mph := 18 } [1] storeW
      (fun _ _ => 5) hfresh 1 pkg' h hdel⟩

/-- Claim C2: `_nearest_next` implements the three-tier priority selection.
It returns `None` exactly when no candidate (present and available) remains;
if some candidate is on time with slack at most 15 minutes, it returns a
smallest-distance such urgent candidate; otherwise, if some candidate is on
time, it returns a nearest on-time candidate; otherwise it returns a nearest
candidate regardless of deadline. -/
theorem claim_C2_three_tier_selection (a : String) (c : ℚ) (remaining : List Nat)
    (st : PkgStore) (dist : String → String → ℚ) :
    ((nearest_next a c remaining st dist).1 = none ↔
      ∀ pid ∈ remaining, candB c st pid = false) ∧
    ((∃ pid ∈ remaining, urgentB a c st dist pid = true) →
      ∃ p ∈ remaining, urgentB a c st dist p = true ∧
        nearest_next a c remaining st dist = (some p, candDist a c st dist p) ∧
        ∀ q ∈ remaining, urgentB a c st dist q = true →
          candDist a c st dist p ≤ candDist a c st dist q) ∧
    ((∀ pid ∈ remaining, urgentB a c st dist pid = false) →
      (∃ pid ∈ remaining, onTimeB a c st dist pid = true) →
      ∃ p ∈ remaining, onTimeB a c st dist p = true ∧
        nearest_next a c remaining st dist = (some p, candDist a c st dist p) ∧
        ∀ q ∈ remaining, onTimeB a c st dist q = true →
          candDist a c st dist p ≤ candDist a c st dist q) ∧
    ((∀ pid ∈ remaining, onTimeB a c st dist pid = false) →
      (∃ pid ∈ remaining, candB c st pid = true) →
      ∃ p ∈ remaining, candB c st p = true ∧
        nearest_next a c remaining st dist = (some p, candDist a c st dist p) ∧
        ∀ q ∈ remaining, candB c st q = true →
          candDist a c st dist p ≤ candDist a c st dist q) := by
  have h := selFinish_tiers a c st dist remaining
    (remaining.foldl (considerPkg a c st dist)
      { urgent := none, best_on := none, best_any := none })
    (nearest_next_stateInv a c remaining st dist)
  exact h

/-- Witness for C2 at a concrete input: with no remaining ids there is no
candidate, and `_nearest_next` returns `None`. -/
theorem claim_C2_witness :
    (nearest_next HUB_ADDR 8 [] storeW (fun _ _ => 5)).1 = none :=
  (claim_C2_three_tier_selection HUB_ADDR 8 [] storeW (fun _ _ => 5)).1.mpr
    (by intro pid hpid; simp at hpid)

/-- Counterexample for C4: the selection helper computes travel hours as
`d / 18.0` with the speed hardcoded, not from `truck.speed_mph`.  For a
truck at 36 mph, a candidate 9 miles away with an 8:24 deadline and the clock
at 8:00 is classified as missing its deadline (projected arrival 8:30 at the
hardcoded 18 mph), even though `truck.clock + travel_time(9, 36) = 8:15`
does not exceed the deadline — so the claimed equivalence with
`truck.clock + travel_time(d, truck.speed_mph) > deadline` is false. -/
theorem claim_C4_counterexample :
    missB HUB_ADDR 8 storeC4 (fun _ _ => 9) 4 = true ∧
    ¬ (8 + travel_time 9 36 > 42/5) := by
  constructor
  · norm_num [missB, would_miss_deadline, candDist, storeC4, pkgC4, basePkg, effectiveAddr]
  · norm_num [travel_time]

/-- Claim C4 as amended: the selection classifies a candidate at distance `d`
as missing its deadline exactly when `clock + travel_time(d, 18) > deadline`,
with the travel time always computed at the fixed default speed of 18 mph
(the hardcoded `d / 18.0` of `_nearest_next`), not at `truck.speed_mph`;
candidates with no deadline (end of day) are never classified as missing. -/
theorem claim_C4_deadline_classification (current_clock d t : ℚ) :
    would_miss_deadline current_clock (d / 18) none = false ∧
    (would_miss_deadline current_clock (d / 18) (some t) = true ↔
      current_clock + travel_time d 18 > t) := by
  constructor
  · rfl
  · unfold would_miss_deadline travel_time
    rw [if_pos (by norm_num)]
    simp

/-- Witness for C4's amended claim at a concrete input. -/
theorem claim_C4_witness :
    would_miss_deadline 8 ((9 : ℚ) / 18) none = false ∧
    (would_miss_deadline 8 ((9 : ℚ) / 18) (some (42/5)) = true ↔
      8 + travel_time 9 18 > (42 : ℚ)/5) :=
  claim_C4_deadline_classification 8 9 (42/5)

/-- Counterexample for C6: a `route_truck` call with `speed_mph = 0` is not
rejected — it returns normally with the truck state computed (empty-load call
shown in full), `travel_time` yields a zero duration for the degenerate
speed instead of raising, and the loop body (`routeStep`) happily delivers a
package while accruing miles and advancing the clock by nothing. -/
theorem claim_C6_counterexample :
    (route_truck truckC6 [] storeW (fun _ _ => 5)).1 = truckC6 ∧
    travel_time 5 0 = 0 ∧
    (routeStep truckC6 storeW 1 5).1.clock = truckC6.clock ∧
    (routeStep truckC6 storeW 1 5).1.miles = truckC6.miles + 5 ∧
    ((routeStep truckC6 storeW 1 5).2 1).map Package.status = some "Delivered" := by
  refine ⟨?_, by norm_num [travel_time], ?_, ?_, ?_⟩
  · rw [route_truck_nil_ids]
    rfl
  · norm_num [routeStep, deliverPkg, stampDeparture, updatePkg, storeW, pkgW, basePkg,
      travel_time, truckC6, effectiveAddr]
  · norm_num [routeStep, deliverPkg, stampDeparture, updatePkg, storeW, pkgW, basePkg,
      travel_time, truckC6, effectiveAddr]
  · norm_num [routeStep, deliverPkg, stampDeparture, updatePkg, storeW, pkgW, basePkg,
      travel_time, truckC6, effectiveAddr]

/-- Claim C6 as amended: degenerate speeds are not rejected; `travel_time`
guards the division by returning a zero duration for any `mph <= 0`, so
travel never advances the clock, and routing proceeds normally. -/
theorem claim_C6_degenerate_speed (miles mph : ℚ) (h : mph ≤ 0) :
    travel_time miles mph = 0 := by
  unfold travel_time
  rw [if_neg (not_lt.mpr h)]

/-- Witness for C6's amended claim at a concrete input. -/
theorem claim_C6_witness : (0 : ℚ) ≤ 0 ∧ travel_time 5 0 = 0 :=
  ⟨le_refl 0, claim_C6_degenerate_speed 5 0 (le_refl 0)⟩

/-- Counterexample for C7: `DistanceMatrix.load` does not make every input
symmetric.  The mirroring pass only copies a nonzero cell onto a zero
transposed cell; on the input `[[0, 3], [5, 0]]`, whose two off-diagonal
cells are both nonzero but different, the loaded matrix keeps
`get(0,1) = 3 ≠ 5 = get(1,0)`. -/
theorem claim_C7_counterexample :
    loadMatrix [[0, 3], [5, 0]] 0 1 = 3 ∧
    loadMatrix [[0, 3], [5, 0]] 1 0 = 5 ∧
    loadMatrix [[0, 3], [5, 0]] 0 1 ≠ loadMatrix [[0, 3], [5, 0]] 1 0 := by
  have h01 : loadMatrix [[0, 3], [5, 0]] 0 1 = 3 := by
    unfold loadMatrix
    rw [show ([[(0 : ℚ), 3], [5, 0]] : List (List ℚ)).length = 2 from rfl]
    rw [mirrorFill_eq (by norm_num) (by norm_num)]
    norm_num [mirrored, fillFromRows]
  have h10 : loadMatrix [[0, 3], [5, 0]] 1 0 = 5 := by
    unfold loadMatrix
    rw [show ([[(0 : ℚ), 3], [5, 0]] : List (List ℚ)).length = 2 from rfl]
    rw [mirrorFill_eq (by norm_num) (by norm_num)]
    norm_num [mirrored, fillFromRows]
  refine ⟨h01, h10, ?_⟩
  rw [h01, h10]
  norm_num

/-- Claim C7 as amended: after `DistanceMatrix.load`, the diagonal is zero
unconditionally, and the matrix is symmetric provided that, for every
off-diagonal pair of valid indices, at most one of the two opposed input
cells is nonzero (as in the triangular WGUPS CSV the loader is written
for). -/
theorem claim_C7_symmetry_zero_diagonal (rows : List (List ℚ)) (i j : Nat)
    (hi : i < rows.length) (hj : j < rows.length) :
    loadMatrix rows i i = 0 ∧
    ((∀ a, a < rows.length → ∀ b, b < rows.length → a ≠ b →
        fillFromRows rows a b = 0 ∨ fillFromRows rows b a = 0) →
      loadMatrix rows i j = loadMatrix rows j i) := by
  unfold loadMatrix
  rw [mirrorFill_eq hi hj, mirrorFill_eq hj hi, mirrorFill_eq hi hi]
  constructor
  · unfold mirrored
    rw [if_pos rfl]
  · intro hone
    by_cases hij : i = j
    · rw [hij]
    · have hji : ¬ j = i := fun h => hij h.symm
      unfold mirrored
      rw [if_neg hij, if_neg hji]
      rcases hone i hi j hj hij with h0 | h0
      · rw [if_neg (by simp [h0])]
        by_cases hji0 : fillFromRows rows j i = 0
        · rw [if_neg (by simp [hji0]), h0, hji0]
        · rw [if_pos hji0]
      · by_cases hij0 : fillFromRows rows i j = 0
        · rw [if_neg (by simp [hij0]), if_neg (by simp [h0]), h0, hij0]
        · rw [if_pos hij0, if_neg (by simp [h0])]

/-- Witness for C7's amended claim at concrete inputs: the diagonal is zero
even on the asymmetric input `[[0, 3], [5, 0]]` (where the at-most-one-nonzero
side condition fails), and the loaded matrix is symmetric on the triangular
input `[[0, 3], [0, 0]]`. -/
theorem claim_C7_witness :
    loadMatrix [[0, 3], [5, 0]] 0 0 = 0 ∧
    loadMatrix [[0, 3], [0, 0]] 0 1 = loadMatrix [[0, 3], [0, 0]] 1 0 := by
  have hone : ∀ a, a < ([[(0 : ℚ), 3], [0, 0]] : List (List ℚ)).length →
      ∀ b, b < ([[(0 : ℚ), 3], [0, 0]] : List (List ℚ)).length → a ≠ b →
      fillFromRows [[0, 3], [0, 0]] a b = 0 ∨ fillFromRows [[0, 3], [0, 0]] b a = 0 := by
    intro a ha b hb hab
    simp only [List.length_cons, List.length_nil] at ha hb
    interval_cases a <;> interval_cases b <;> simp_all [fillFromRows]
  exact ⟨(claim_C7_symmetry_zero_diagonal [[0, 3], [5, 0]] 0 0
            (by norm_num) (by norm_num)).1,
         (claim_C7_symmetry_zero_diagonal [[0, 3], [0, 0]] 0 1
            (by norm_num) (by norm_num)).2 hone⟩

/-- Claim C10: on any well-formed table state, `search` right after
`insert(k, v)` returns `v` (the proof covers both the in-place replacement
and the append path, including the doubling `_resize` when the load factor
is exceeded); inserting an already-present key keeps `len` unchanged; and
after `remove(k)`, `search(k)` returns `None`. -/
theorem claim_C10_hash_table_ops {K V : Type} [DecidableEq K] (hash : K → Nat)
    (t : ChainingHashTable K V) (hW : WF hash t) (k : K) (v : V) :
    search hash (insert hash t k v) k = some v ∧
    (search hash t k ≠ none → (insert hash t k v).size = t.size) ∧
    search hash (remove hash t k).1 k = none :=
  ⟨insert_search_self hash hW k v,
   fun hmem => insert_size_of_present hash t k v hmem,
   remove_search_none hash hW k⟩

/-- Witness for C10 at a concrete input: the one-bucket table holding key 0,
with identity hashing. -/
theorem claim_C10_witness :
    WF (fun k => k) htW ∧
    (search (fun k => k) (insert (fun k => k) htW 0 7) 0 = some 7 ∧
     (search (fun k => k) htW 0 ≠ none → (insert (fun k => k) htW 0 7).size = htW.size) ∧
     search (fun k => k) (remove (fun k => k) htW 0).1 0 = none) := by
  have hW : WF (fun k => k) htW := by
    refine ⟨by norm_num [htW], ?_, by simp [htW]⟩
    intro i p hp
    rcases i with ⟨iv, hiv⟩
    simp only [htW, List.length_cons, List.length_nil] at hiv
    interval_cases iv
    · simp only [htW, List.get] at hp
      simp at hp
      rw [hp]
      rfl
  exact ⟨hW, claim_C10_hash_table_ops (fun k => k) htW hW 0 7⟩

/-- The `trucks[tid]` lookup on a simulation result. -/
def truckOf (r : SimResult) (tid : Nat) : Truck :=
  if tid = 1 then r.t1 else if tid = 2 then r.t2 else r.t3

theorem route_truck_preserves_no_tid {tid : Nat} (truck : Truck) (hid : truck.id ≠ tid)
    (l : List Nat) (store : PkgStore) (dist : String → String → ℚ)
    (hfresh : ∀ pid pkg, store pid = some pkg → pkg.truck_id ≠ some tid) :
    ∀ pid pkg', (route_truck truck l store dist).2 pid = some pkg' →
      pkg'.truck_id ≠ some tid := by
  intro pid pkg' h
  rcases route_truck_truck_id truck l store dist pid pkg' h with h' | ⟨pkg, hs, h'⟩
  · rw [h']
    intro he
    injection he with he
    exact hid he
  · rw [h']
    exact hfresh pid pkg hs

theorem step_no_tid {tid : Nat} (t : Truck) (lo : Option (List Nat))
    (store : PkgStore) (dist : String → String → ℚ) (res : Truck × PkgStore)
    (hres : res =
      match lo with
      | some l => if l ≠ [] then route_truck t l store dist else (t, store)
      | none => (t, store))
    (hok : t.id ≠ tid ∨ lo = none ∨ lo = some [])
    (hfresh : ∀ pid pkg, store pid = some pkg → pkg.truck_id ≠ some tid) :
    ∀ pid pkg', res.2 pid = some pkg' → pkg'.truck_id ≠ some tid := by
  subst hres
  rcases lo with _ | l
  · exact hfresh
  · dsimp only
    split
    · rename_i hne
      have hid : t.id ≠ tid := by
        rcases hok with h | h | h
        · exact h
        · cases h
        · injection h with h
          exact absurd h hne
      exact route_truck_preserves_no_tid t hid l store dist hfresh
    · exact hfresh

theorem step3_no_tid {tid : Nat} (t3h : Truck) (lo : Option (List Nat))
    (c1 c2 : ℚ) (store : PkgStore)
    (dist : String → String → ℚ) (res : Truck × PkgStore)
    (hres : res =
      match lo with
      | some l =>
        if l ≠ [] then
          route_truck
            (if t3h.start_time < min c1 c2 then
              { t3h with start_time := min c1 c2, clock := min c1 c2 }
            else t3h) l store dist
        else (t3h, store)
      | none => (t3h, store))
    (hok : t3h.id ≠ tid ∨ lo = none ∨ lo = some [])
    (hfresh : ∀ pid pkg, store pid = some pkg → pkg.truck_id ≠ some tid) :
    ∀ pid pkg', res.2 pid = some pkg' → pkg'.truck_id ≠ some tid := by
  subst hres
  rcases lo with _ | l
  · exact hfresh
  · dsimp only
    split
    · rename_i hne
      have hid : t3h.id ≠ tid := by
        rcases hok with h | h | h
        · exact h
        · cases h
        · injection h with h
          exact absurd h hne
      have hid2 : (if t3h.start_time < min c1 c2 then
          { t3h with start_time := min c1 c2, clock := min c1 c2 }
        else t3h).id ≠ tid := by
        split
        · exact hid
        · exact hid
      exact route_truck_preserves_no_tid _ hid2 l store dist hfresh
    · exact hfresh

/-- Claim C3: when all three trucks carry non-empty loads, truck 3's start
time (the clock it is reset to when its routing begins) is exactly
`max(hold override for 3 — or the default 8:00 — , min(truck1 finish clock,
truck2 finish clock))`; in particular it is at least the earlier of the two
finish clocks and at least any explicit hold override for truck 3. -/
theorem claim_C3_truck3_driver_gate (store : PkgStore) (dist : String → String → ℚ)
    (loads : Nat → Option (List Nat)) (holds : Nat → Option ℚ) (l1 l2 l3 : List Nat)
    (h1 : loads 1 = some l1) (h1n : l1 ≠ []) (h2 : loads 2 = some l2) (h2n : l2 ≠ [])
    (h3 : loads 3 = some l3) (h3n : l3 ≠ []) :
    (simulate_day store dist loads holds).1.t3.start_time =
      max ((holds 3).getD HUB_START)
        (min (simulate_day store dist loads holds).1.t1.clock
             (simulate_day store dist loads holds).1.t2.clock) ∧
    min (simulate_day store dist loads holds).1.t1.clock
        (simulate_day store dist loads holds).1.t2.clock ≤
      (simulate_day store dist loads holds).1.t3.start_time ∧
    (holds 3).getD HUB_START ≤ (simulate_day store dist loads holds).1.t3.start_time := by
  unfold simulate_day
  simp only [h1, h2, h3]
  rw [if_pos h1n, if_pos h2n, if_pos h3n]
  generalize (route_truck (applyHold holds (mkTruck 1)) l1 store dist) = R1
  generalize (route_truck (applyHold holds (mkTruck 2)) l2 R1.2 dist) = R2
  have hstart3 : (applyHold holds (mkTruck 3)).start_time = (holds 3).getD HUB_START :=
    (applyHold_mkTruck holds 3).2.2.2.2.1
  generalize hA : applyHold holds (mkTruck 3) = t3h at hstart3
  have hG : (route_truck
      (if t3h.start_time < min R1.1.clock R2.1.clock then
        { t3h with start_time := min R1.1.clock R2.1.clock,
                   clock := min R1.1.clock R2.1.clock }
      else t3h) l3 R2.2 dist).1.start_time =
      max ((holds 3).getD HUB_START) (min R1.1.clock R2.1.clock) := by
    rw [(route_truck_truck_fields _ l3 R2.2 dist).2.2.2.1]
    rw [apply_ite Truck.start_time]
    dsimp only
    rw [hstart3, if_lt_eq_max]
  rw [hG]
  exact ⟨rfl, le_max_right _ _, le_max_left _ _⟩

/-- Witness for C3 at a concrete input: one package per truck, no holds. -/
theorem claim_C3_witness :
    ((fun i => if i ≤ 3 then some [1] else none) 1 = some [1]) ∧
    (simulate_day storeW (fun _ _ => 5) (fun i => if i ≤ 3 then some [1] else none)
        (fun _ => none)).1.t3.start_time =
      max (((fun (_ : Nat) => (none : Option ℚ)) 3).getD HUB_START)
        (min (simulate_day storeW (fun _ _ => 5)
                (fun i => if i ≤ 3 then some [1] else none) (fun _ => none)).1.t1.clock
             (simulate_day storeW (fun _ _ => 5)
                (fun i => if i ≤ 3 then some [1] else none) (fun _ => none)).1.t2.clock) := by
  refine ⟨rfl, ?_⟩
  exact (claim_C3_truck3_driver_gate storeW (fun _ _ => 5)
    (fun i => if i ≤ 3 then some [1] else none) (fun _ => none) [1] [1] [1]
    rfl (by simp) rfl (by simp) rfl (by simp)).1

/-- Claim C9: a truck whose id is absent from the loads mapping, or whose
load list is empty, is never routed by `simulate_day`: it ends with zero
miles, its clock and start time at its hold override (or the default 8:00),
still at the hub with an empty load; no package in the (initially
reference-free) store ends up referencing it; and `total_miles` still sums
the mileage of all three trucks. -/
theorem claim_C9_unrouted_truck (store : PkgStore) (dist : String → String → ℚ)
    (loads : Nat → Option (List Nat)) (holds : Nat → Option ℚ) (tid : Nat)
    (htid : tid = 1 ∨ tid = 2 ∨ tid = 3)
    (hload : loads tid = none ∨ loads tid = some [])
    (hfresh : ∀ pid pkg, store pid = some pkg → pkg.truck_id ≠ some tid) :
    (truckOf (simulate_day store dist loads holds).1 tid).miles = 0 ∧
    (truckOf (simulate_day store dist loads holds).1 tid).clock =
      (holds tid).getD HUB_START ∧
    (truckOf (simulate_day store dist loads holds).1 tid).start_time =
      (holds tid).getD HUB_START ∧
    (truckOf (simulate_day store dist loads holds).1 tid).current_addr = HUB_ADDR ∧
    (truckOf (simulate_day store dist loads holds).1 tid).load = [] ∧
    (∀ pid pkg', (simulate_day store dist loads holds).2 pid = some pkg' →
      pkg'.truck_id ≠ some tid) ∧
    (simulate_day store dist loads holds).1.total_miles =
      (simulate_day store dist loads holds).1.t1.miles +
      (simulate_day store dist loads holds).1.t2.miles +
      (simulate_day store dist loads holds).1.t3.miles := by
  obtain ⟨ha1, ha2, ha3, ha4, ha5, ha6⟩ := applyHold_mkTruck holds tid
  rcases htid with rfl | rfl | rfl
  · refine ⟨?_, ?_, ?_, ?_, ?_, ?_, ?_⟩
    · unfold truckOf simulate_day
      rw [if_pos rfl]
      dsimp only
      rcases hload with hl | hl <;> rw [hl] <;> exact ha2
    · unfold truckOf simulate_day
      rw [if_pos rfl]
      dsimp only
      rcases hload with hl | hl <;> rw [hl] <;> exact ha6
    · unfold truckOf simulate_day
      rw [if_pos rfl]
      dsimp only
      rcases hload with hl | hl <;> rw [hl] <;> exact ha5
    · unfold truckOf simulate_day
      rw [if_pos rfl]
      dsimp only
      rcases hload with hl | hl <;> rw [hl] <;> exact ha4
    · unfold truckOf simulate_day
      rw [if_pos rfl]
      dsimp only
      rcases hload with hl | hl <;> rw [hl] <;> exact ha3
    · unfold simulate_day
      dsimp only
      refine step3_no_tid (applyHold holds (mkTruck 3)) (loads 3) _ _ _ dist _ rfl (Or.inl ?_) ?_
      · rw [(applyHold_mkTruck holds 3).1]
        omega
      refine step_no_tid (applyHold holds (mkTruck 2)) (loads 2) _ dist _ rfl (Or.inl ?_) ?_
      · rw [(applyHold_mkTruck holds 2).1]
        omega
      refine step_no_tid (applyHold holds (mkTruck 1)) (loads 1) _ dist _ rfl (Or.inr hload) ?_
      exact hfresh
    · rfl
  · refine ⟨?_, ?_, ?_, ?_, ?_, ?_, ?_⟩
    · unfold truckOf simulate_day
      rw [if_neg (show ¬(2 = 1) from by omega), if_pos rfl]
      dsimp only
      rcases hload with hl | hl <;> rw [hl] <;> exact ha2
    · unfold truckOf simulate_day
      rw [if_neg (show ¬(2 = 1) from by omega), if_pos rfl]
      dsimp only
      rcases hload with hl | hl <;> rw [hl] <;> exact ha6
    · unfold truckOf simulate_day
      rw [if_neg (show ¬(2 = 1) from by omega), if_pos rfl]
      dsimp only
      rcases hload with hl | hl <;> rw [hl] <;> exact ha5
    · unfold truckOf simulate_day
      rw [if_neg (show ¬(2 = 1) from by omega), if_pos rfl]
      dsimp only
      rcases hload with hl | hl <;> rw [hl] <;> exact ha4
    · unfold truckOf simulate_day
      rw [if_neg (show ¬(2 = 1) from by omega), if_pos rfl]
      dsimp only
      rcases hload with hl | hl <;> rw [hl] <;> exact ha3
    · unfold simulate_day
      dsimp only
      refine step3_no_tid (applyHold holds (mkTruck 3)) (loads 3) _ _ _ dist _ rfl (Or.inl ?_) ?_
      · rw [(applyHold_mkTruck holds 3).1]
        omega
      refine step_no_tid (applyHold holds (mkTruck 2)) (loads 2) _ dist _ rfl (Or.inr hload) ?_
      refine step_no_tid (applyHold holds (mkTruck 1)) (loads 1) _ dist _ rfl (Or.inl ?_) ?_
      · rw [(applyHold_mkTruck holds 1).1]
        omega
      exact hfresh
    · rfl
  · refine ⟨?_, ?_, ?_, ?_, ?_, ?_, ?_⟩
    · unfold truckOf simulate_day
      rw [if_neg (show ¬(3 = 1) from by omega), if_neg (show ¬(3 = 2) from by omega)]
      dsimp only
      rcases hload with hl | hl <;> rw [hl] <;> exact ha2
    · unfold truckOf simulate_day
      rw [if_neg (show ¬(3 = 1) from by omega), if_neg (show ¬(3 = 2) from by omega)]
      dsimp only
      rcases hload with hl | hl <;> rw [hl] <;> exact ha6
    · unfold truckOf simulate_day
      rw [if_neg (show ¬(3 = 1) from by omega), if_neg (show ¬(3 = 2) from by omega)]
      dsimp only
      rcases hload with hl | hl <;> rw [hl] <;> exact ha5
    · unfold truckOf simulate_day
      rw [if_neg (show ¬(3 = 1) from by omega), if_neg (show ¬(3 = 2) from by omega)]
      dsimp only
      rcases hload with hl | hl <;> rw [hl] <;> exact ha4
    · unfold truckOf simulate_day
      rw [if_neg (show ¬(3 = 1) from by omega), if_neg (show ¬(3 = 2) from by omega)]
      dsimp only
      rcases hload with hl | hl <;> rw [hl] <;> exact ha3
    · unfold simulate_day
      dsimp only
      refine step3_no_tid (applyHold holds (mkTruck 3)) (loads 3) _ _ _ dist _ rfl (Or.inr hload) ?_
      refine step_no_tid (applyHold holds (mkTruck 2)) (loads 2) _ dist _ rfl (Or.inl ?_) ?_
      · rw [(applyHold_mkTruck holds 2).1]
        omega
      refine step_no_tid (applyHold holds (mkTruck 1)) (loads 1) _ dist _ rfl (Or.inl ?_) ?_
      · rw [(applyHold_mkTruck holds 1).1]
        omega
      exact hfresh
    · rfl

/-- Witness for C9 at a concrete input: truck 3 has no load entry and the
one-package store references no truck. -/
theorem claim_C9_witness :
    ((3 : Nat) = 1 ∨ (3 : Nat) = 2 ∨ (3 : Nat) = 3) ∧
    (truckOf (simulate_day storeW (fun _ _ => 5)
        (fun i => if i = 3 then none else some [1]) (fun _ => none)).1 3).miles = 0 ∧
    (∀ pid pkg', (simulate_day storeW (fun _ _ => 5)
        (fun i => if i = 3 then none else some [1]) (fun _ => none)).2 pid = some pkg' →
      pkg'.truck_id ≠ some 3) := by
  have hfresh : ∀ pid pkg, storeW pid = some pkg → pkg.truck_id ≠ some 3 := by
    intro pid pkg h
    unfold storeW at h
    split at h
    · injection h with h
      rw [← h]
      simp [pkgW, basePkg]
    · cases h
  have h := claim_C9_unrouted_truck storeW (fun _ _ => 5)
    (fun i => if i = 3 then none else some [1]) (fun _ => none) 3
    (by omega) (by left; rfl) hfresh
  exact ⟨by omega, h.1, h.2.2.2.2.2.1⟩

end ParcelRouting
